import Mathlib

/-!
Verification development for the study-group backend.

The definitions below are a shallow embedding of the group-membership
lifecycle and chat-message state machine of the source:

* `src/src/services/group.service.ts`  (createGroup, getGroupById, deleteGroup,
  joinGroup, leaveGroup)
* `src/src/controllers/member.controller.ts` (addMember, removeMember)
* the chat controller (sendMessage, editMessage, reactToMessage,
  togglePinMessage, markAsRead) and chat routes
* the Group model pre-save hook generating join codes.

Document ids are `Nat`, timestamps are `Int` milliseconds.  Mongoose
`findById` / `findOne` become `List.find?` (first match); `doc.save()`
writes the mutated snapshot back over the stored document with the same
key (`updateFirst`); `findByIdAndDelete` removes exactly the found
document (`removeFirst`).  A thrown error inside a transaction aborts it
(`session.abortTransaction()`), so an operation that fails returns
`Except.error` and leaves the database value unchanged.  Presentation-only
fields (title, description, tags, avatars, populate projections) are not
modelled; no claim mentions them.
-/

namespace StudyGroup

/-- Error taxonomy of src/src/utils/apiError.ts: the services throw
NotFoundError, BadRequestError, ForbiddenError, ConflictError
(HttpStatus 404 / 400 / 403 / 409). -/
inductive ApiErr where
  | notFound
  | badRequest
  | forbidden
  | conflict
  | unauthorized
  deriving DecidableEq, Repr

/-- GroupVisibility enum (PUBLIC / PRIVATE); `V` suffix avoids the Lean
keyword. -/
inductive GroupVisibility where
  | publicV
  | privateV
  deriving DecidableEq, Repr

/-- MemberRole enum of src/src/interfaces/IGroupMember.ts. -/
inductive MemberRole where
  | leader
  | admin
  | member
  deriving DecidableEq, Repr

/-- MemberStatus enum of src/src/interfaces/IGroupMember.ts. -/
inductive MemberStatus where
  | active
  | inactive
  | banned
  deriving DecidableEq, Repr

/-- Group document (Group model): id, leader, capacity, denormalized
currentMemberCount, visibility, optional joinCode, isActive soft-delete
flag. -/
structure Group where
  id : Nat
  leader : Nat
  capacity : Nat
  currentMemberCount : Nat
  visibility : GroupVisibility
  joinCode : Option String
  isActive : Bool
  deriving DecidableEq, Repr

/-- GroupMember document (GroupMember model): the (group, user) join row
with role, status and joinedAt. -/
structure Membership where
  group : Nat
  user : Nat
  role : MemberRole
  status : MemberStatus
  joinedAt : Int
  deriving DecidableEq, Repr

/-- User document, reduced to what addMember reads (existence and
isActive). -/
structure UserRec where
  id : Nat
  isActive : Bool
  deriving DecidableEq, Repr

/-- The persistent state the group/membership operations touch. -/
structure DB where
  groups : List Group
  members : List Membership
  users : List UserRec
  deriving DecidableEq, Repr

/-- Replace the first element satisfying `p` by its image under `f`
(mongoose `doc.save()` writing back the document `find?` returned). -/
def updateFirst (p : α → Bool) (f : α → α) : List α → List α
  | [] => []
  | x :: xs => if p x then f x :: xs else x :: updateFirst p f xs

/-- Remove the first element satisfying `p` (mongoose
`findByIdAndDelete` on the document `find?` returned). -/
def removeFirst (p : α → Bool) : List α → List α
  | [] => []
  | x :: xs => if p x then xs else x :: removeFirst p xs

/-- Group.findById. -/
def findGroup (db : DB) (groupId : Nat) : Option Group :=
  db.groups.find? (fun g => g.id == groupId)

/-- Key predicate of GroupMember.findOne on (group, user). -/
def memberKey (groupId userId : Nat) (m : Membership) : Bool :=
  m.group == groupId && m.user == userId

/-- GroupMember.findOne on group and user. -/
def findMembership (db : DB) (groupId userId : Nat) : Option Membership :=
  db.members.find? (memberKey groupId userId)

/-- GroupMember.findOne on group, user and status ACTIVE. -/
def findActiveMembership (db : DB) (groupId userId : Nat) : Option Membership :=
  db.members.find?
    (fun m => m.group == groupId && m.user == userId && m.status == MemberStatus.active)

/-- Number of ACTIVE membership rows of a group
(GroupMember.countDocuments with status ACTIVE). -/
def activeCount (ms : List Membership) (groupId : Nat) : Nat :=
  ms.countP (fun m => m.group == groupId && m.status == MemberStatus.active)

/-- JavaScript falsiness of an optional string: `undefined` and the empty
string are falsy (`!joinData?.joinCode`, `!this.joinCode`). -/
def jsFalsy : Option String → Bool
  | none => true
  | some s => s == ""

/-- createGroup of group.service.ts: inside one transaction, create the
Group document with currentMemberCount 1 and the leader membership row
with role LEADER, status ACTIVE.  `gid` models the freshly allocated
ObjectId (guarded unused), the capacity bound is the Group schema
validation (min 2, max 100), and `generatedCode` is what the pre-save
hook would assign when the group is private and no join code was
supplied. -/
def createGroup (db : DB) (userId : Nat) (gid : Nat) (capacity : Nat)
    (visibility : GroupVisibility) (joinCode : Option String)
    (generatedCode : String) (now : Int) : Except ApiErr DB :=
  if db.groups.any (fun g => g.id == gid) then .error .badRequest
  else if capacity < 2 || 100 < capacity then .error .badRequest
  else
    let code := if visibility == .privateV && jsFalsy joinCode
      then some generatedCode else joinCode
    .ok { db with
      groups := db.groups ++ [⟨gid, userId, capacity, 1, visibility, code, true⟩],
      members := db.members ++ [⟨gid, userId, .leader, .active, now⟩] }

/-- joinGroup of group.service.ts, lines 289-371.  Checks in source
order: group missing or inactive, capacity, existing ACTIVE membership,
BANNED membership, private join code; then reactivates the existing row
(status ACTIVE, joinedAt now) or creates a fresh MEMBER row, and
increments currentMemberCount, all committed together. -/
def joinGroup (db : DB) (groupId userId : Nat) (joinCode : Option String)
    (now : Int) : Except ApiErr DB :=
  match findGroup db groupId with
  | none => .error .notFound
  | some group =>
    if !group.isActive then .error .notFound
    else if group.capacity ≤ group.currentMemberCount then .error .forbidden
    else
      match findMembership db groupId userId with
      | some existingMember =>
        if existingMember.status == .active then .error .conflict
        else if existingMember.status == .banned then .error .forbidden
        else if group.visibility == .privateV &&
            (jsFalsy joinCode || joinCode != group.joinCode) then .error .badRequest
        else .ok { db with
          members := updateFirst (memberKey groupId userId)
            (fun _ => { existingMember with status := .active, joinedAt := now })
            db.members,
          groups := updateFirst (fun g => g.id == groupId)
            (fun _ => { group with currentMemberCount := group.currentMemberCount + 1 })
            db.groups }
      | none =>
        if group.visibility == .privateV &&
            (jsFalsy joinCode || joinCode != group.joinCode) then .error .badRequest
        else .ok { db with
          members := db.members ++ [⟨groupId, userId, .member, .active, now⟩],
          groups := updateFirst (fun g => g.id == groupId)
            (fun _ => { group with currentMemberCount := group.currentMemberCount + 1 })
            db.groups }

/-- leaveGroup of group.service.ts, lines 376-421: group must exist, the
leader cannot leave, an ACTIVE membership must exist; it is deleted and
the counter becomes `Math.max(0, count - 1)` (truncated subtraction on
`Nat`). -/
def leaveGroup (db : DB) (groupId userId : Nat) : Except ApiErr DB :=
  match findGroup db groupId with
  | none => .error .notFound
  | some group =>
    if group.leader == userId then .error .badRequest
    else
      match findActiveMembership db groupId userId with
      | none => .error .notFound
      | some _ => .ok { db with
          members := removeFirst
            (fun m => m.group == groupId && m.user == userId &&
              m.status == MemberStatus.active) db.members,
          groups := updateFirst (fun g => g.id == groupId)
            (fun _ => { group with currentMemberCount := group.currentMemberCount - 1 })
            db.groups }

/-- addMember of member.controller.ts, lines 186-274: group exists and
active, capacity, target user exists and active, existing ACTIVE / BANNED
membership checks, then reactivation or creation plus counter increment.
The requester leader/admin gate lives in route middleware and does not
touch this state. -/
def addMember (db : DB) (groupId memberUserId : Nat) (now : Int) :
    Except ApiErr DB :=
  match findGroup db groupId with
  | none => .error .notFound
  | some group =>
    if !group.isActive then .error .notFound
    else if group.capacity ≤ group.currentMemberCount then .error .forbidden
    else
      match db.users.find? (fun u => u.id == memberUserId) with
      | none => .error .notFound
      | some user =>
        if !user.isActive then .error .notFound
        else
          match findMembership db groupId memberUserId with
          | some existingMember =>
            if existingMember.status == .active then .error .conflict
            else if existingMember.status == .banned then .error .forbidden
            else .ok { db with
              members := updateFirst (memberKey groupId memberUserId)
                (fun _ => { existingMember with status := .active, joinedAt := now })
                db.members,
              groups := updateFirst (fun g => g.id == groupId)
                (fun _ => { group with currentMemberCount := group.currentMemberCount + 1 })
                db.groups }
          | none => .ok { db with
              members := db.members ++ [⟨groupId, memberUserId, .member, .active, now⟩],
              groups := updateFirst (fun g => g.id == groupId)
                (fun _ => { group with currentMemberCount := group.currentMemberCount + 1 })
                db.groups }

/-- removeMember of member.controller.ts, lines 281-337: group exists,
the target must not be the leader, target has an ACTIVE membership; the
row is deleted and the counter decremented with a floor at 0. -/
def removeMember (db : DB) (groupId memberUserId : Nat) : Except ApiErr DB :=
  match findGroup db groupId with
  | none => .error .notFound
  | some group =>
    if group.leader == memberUserId then .error .badRequest
    else
      match findActiveMembership db groupId memberUserId with
      | none => .error .notFound
      | some _ => .ok { db with
          members := removeFirst
            (fun m => m.group == groupId && m.user == memberUserId &&
              m.status == MemberStatus.active) db.members,
          groups := updateFirst (fun g => g.id == groupId)
            (fun _ => { group with currentMemberCount := group.currentMemberCount - 1 })
            db.groups }

/-- deleteGroup of group.service.ts, lines 247-284: leader only; sets
isActive false and updates every membership row of the group to INACTIVE.
The source never touches currentMemberCount here. -/
def deleteGroup (db : DB) (groupId userId : Nat) : Except ApiErr DB :=
  match findGroup db groupId with
  | none => .error .notFound
  | some group =>
    if group.leader != userId then .error .forbidden
    else .ok { db with
      groups := updateFirst (fun g => g.id == groupId)
        (fun _ => { group with isActive := false }) db.groups,
      members := db.members.map
        (fun m => if m.group == groupId then { m with status := .inactive } else m) }

/-- getGroupById of group.service.ts, lines 172-201: NotFound when the
group is missing; the private-visibility check runs only when both
`visibility` is PRIVATE and a `userId` was supplied (the source condition
is `group.visibility === PRIVATE && userId`). -/
def getGroupById (db : DB) (groupId : Nat) (userId : Option Nat) :
    Except ApiErr Group :=
  match findGroup db groupId with
  | none => .error .notFound
  | some group =>
    match userId with
    | some uid =>
      if group.visibility == .privateV then
        if (findActiveMembership db groupId uid).isNone && group.leader != uid
        then .error .forbidden
        else .ok group
      else .ok group
    | none => .ok group

/-! Message store (Message model and the chat controller). -/

/-- Entry of the append-only editHistory log. -/
structure EditEntry where
  content : String
  editedAt : Int
  deriving DecidableEq, Repr

/-- Reaction entry of the Message model: an emoji with the array of users
who reacted with it. -/
structure Reaction where
  emoji : String
  users : List Nat
  deriving DecidableEq, Repr

/-- Message document, reduced to the fields the verified operations
touch (file metadata, messageType and replyTo are presentation-only for
the claims at hand). -/
structure Message where
  id : Nat
  groupId : Nat
  sender : Nat
  content : String
  reactions : List Reaction
  isPinned : Bool
  isEdited : Bool
  editHistory : List EditEntry
  isDeleted : Bool
  readBy : List Nat
  createdAt : Int
  deriving DecidableEq, Repr

/-- The 15-minute edit window of the chat controller, in milliseconds
(`15 * 60 * 1000`). -/
def fifteenMinutes : Int := 15 * 60 * 1000

/-- editMessage of the chat controller (part_004 lines 328-377), applied
to the message `findById` returned: Forbidden unless the requester is the
sender, BadRequest when deleted, Forbidden when
`Date.now() - createdAt > fifteenMinutes` (strict), else push the pre-edit
content onto editHistory, replace content, set isEdited. -/
def editMessage (message : Message) (userId : Nat) (content : String)
    (now : Int) : Except ApiErr Message :=
  if message.sender != userId then .error .forbidden
  else if message.isDeleted then .error .badRequest
  else if now - message.createdAt > fifteenMinutes then .error .forbidden
  else .ok { message with
    editHistory := message.editHistory ++ [⟨message.content, now⟩],
    content := content,
    isEdited := true }

/-- Reaction toggle of reactToMessage (part_004 lines 440-465): find the
emoji entry; if the user already reacted, splice them out and drop the
entry once its user array is empty; otherwise push the user; a missing
entry is created with the single user. -/
def applyReactionToggle (reactions : List Reaction) (userId : Nat)
    (emoji : String) : List Reaction :=
  match reactions.find? (fun r => r.emoji == emoji) with
  | some existingReaction =>
    if existingReaction.users.any (fun u => u == userId) then
      let users := removeFirst (fun u => u == userId) existingReaction.users
      if users.isEmpty then
        reactions.filter (fun r => !(r.emoji == emoji))
      else
        updateFirst (fun r => r.emoji == emoji)
          (fun r => { r with users := users }) reactions
    else
      updateFirst (fun r => r.emoji == emoji)
        (fun r => { r with users := r.users ++ [userId] }) reactions
  | none => reactions ++ [⟨emoji, [userId]⟩]

/-- reactToMessage route handler (part_004 lines 421-471) as reached
through its route `POST /message/:messageId/react`, which applies only
`authenticate` (part_001 line 75): the handler looks the message up and
toggles the reaction; no group-membership or isDeleted check appears
anywhere on the path. -/
def reactToMessage (messages : List Message) (messageId userId : Nat)
    (emoji : String) : Except ApiErr Message :=
  match messages.find? (fun m => m.id == messageId) with
  | none => .error .notFound
  | some message =>
    .ok { message with
      reactions := applyReactionToggle message.reactions userId emoji }

/-- Pinned-message count of togglePinMessage:
`Message.countDocuments with groupId and isPinned true` (deleted messages
included, as in the source). -/
def pinnedCount (messages : List Message) (groupId : Nat) : Nat :=
  messages.countP (fun m => m.groupId == groupId && m.isPinned)

/-- togglePinMessage of the chat controller (part_004 lines 478-520):
NotFound when message or group is missing, Forbidden unless the requester
is the group leader; when about to pin and five messages of the group are
already pinned, BadRequest; otherwise the pin flag is flipped and saved.
No isDeleted check appears in the source. -/
def togglePinMessage (messages : List Message) (groups : List Group)
    (messageId userId : Nat) : Except ApiErr (List Message) :=
  match messages.find? (fun m => m.id == messageId) with
  | none => .error .notFound
  | some message =>
    match groups.find? (fun g => g.id == message.groupId) with
    | none => .error .notFound
    | some group =>
      if group.leader != userId then .error .forbidden
      else
        let saved := updateFirst (fun m => m.id == messageId)
          (fun _ => { message with isPinned := !message.isPinned }) messages
        if !message.isPinned then
          if 5 ≤ pinnedCount messages message.groupId then .error .badRequest
          else .ok saved
        else .ok saved

/-- markAsRead of the chat controller (part_004 lines 547-563) as reached
through `PATCH /message/:messageId/read` with only `authenticate`
(part_001 line 89): push the user onto readBy unless already present; no
membership check appears on the path. -/
def markAsRead (messages : List Message) (messageId userId : Nat) :
    Except ApiErr (List Message) :=
  match messages.find? (fun m => m.id == messageId) with
  | none => .error .notFound
  | some message =>
    if message.readBy.any (fun u => u == userId) then .ok messages
    else .ok (updateFirst (fun m => m.id == messageId)
      (fun _ => { message with readBy := message.readBy ++ [userId] }) messages)

/-! Join-code generation (Group model pre-save hook):
`Math.random().toString(36).substring(2, 10).toUpperCase()`. -/

/-- Character of one base-36 digit as produced by JavaScript
`Number.prototype.toString(36)`: 0-9 then lowercase a-z. -/
def base36Char (d : Nat) : Char :=
  if d < 10 then Char.ofNat (48 + d) else Char.ofNat (97 + (d - 10))

/-- JavaScript `x.toString(36)` for `x = Math.random() ∈ [0,1)`, driven
by the list of base-36 fraction digits of the drawn value: `0` prints as
`0`, any other value prints as `0.` followed by its digits (JavaScript
never prints trailing zero digits, so the digit list of a nonzero value
is nonempty with a nonzero last digit). -/
def randomToString36 (digits : List Nat) : String :=
  if digits.isEmpty then "0"
  else "0." ++ String.mk (digits.map base36Char)

/-- JavaScript `String.prototype.substring(a, b)`: the characters with
index in `[a, min b length)`. -/
def jsSubstring (s : String) (a b : Nat) : String :=
  String.mk ((s.data.drop a).take (b - a))

/-- JavaScript `String.prototype.toUpperCase` on the characters at hand
(ASCII). -/
def jsToUpperCase (s : String) : String :=
  String.mk (s.data.map Char.toUpper)

/-- Join-code expression of the Group model pre-save hook (Message.model.ts
concatenation, lines 242-247): `Math.random().toString(36).substring(2, 10)
.toUpperCase()`, as a function of the drawn value's base-36 fraction
digits. -/
def generateJoinCode (digits : List Nat) : String :=
  jsToUpperCase (jsSubstring (randomToString36 digits) 2 10)

/-- The pre-save hook itself: when the group is private and has no
(truthy) join code yet, assign the generated one. -/
def preSaveJoinCode (g : Group) (digits : List Nat) : Group :=
  if g.visibility == .privateV && jsFalsy g.joinCode then
    { g with joinCode := some (generateJoinCode digits) }
  else g

/-! Interleaving decomposition of joinGroup (for the concurrency claim).
In the source the whole check sequence runs on documents read at the
start of the request (`Group.findById` is even issued without the session
in group.service.ts line 298) and only the final writes commit together,
so between the read phase of one request and its commit another request
can run in full.  `joinRead` performs the checks on a snapshot and
returns the documents the writes will be computed from; `joinCommit`
applies those writes.  `joinGroup_eq_read_commit` below shows that when
nothing interleaves this decomposition is exactly `joinGroup`. -/

/-- Read-and-check phase of joinGroup on a state snapshot: returns the
group document and the existing-membership lookup result the write phase
will use. -/
def joinRead (db : DB) (groupId userId : Nat) (joinCode : Option String) :
    Except ApiErr (Group × Option Membership) :=
  match findGroup db groupId with
  | none => .error .notFound
  | some group =>
    if !group.isActive then .error .notFound
    else if group.capacity ≤ group.currentMemberCount then .error .forbidden
    else
      match findMembership db groupId userId with
      | some existingMember =>
        if existingMember.status == .active then .error .conflict
        else if existingMember.status == .banned then .error .forbidden
        else if group.visibility == .privateV &&
            (jsFalsy joinCode || joinCode != group.joinCode) then .error .badRequest
        else .ok (group, some existingMember)
      | none =>
        if group.visibility == .privateV &&
            (jsFalsy joinCode || joinCode != group.joinCode) then .error .badRequest
        else .ok (group, none)

/-- Commit phase of joinGroup: write the membership row and the counter
computed from the snapshot the read phase captured (`group.currentMemberCount
+= 1` increments the in-memory snapshot and `save` writes it back). -/
def joinCommit (db : DB) (groupId userId : Nat)
    (plan : Group × Option Membership) (now : Int) : DB :=
  { db with
    members := match plan.2 with
      | some existingMember => updateFirst (memberKey groupId userId)
          (fun _ => { existingMember with status := .active, joinedAt := now })
          db.members
      | none => db.members ++ [⟨groupId, userId, .member, .active, now⟩],
    groups := updateFirst (fun g => g.id == groupId)
      (fun _ => { plan.1 with currentMemberCount := plan.1.currentMemberCount + 1 })
      db.groups }

/-- When a join runs with no interleaving, the read-commit decomposition
agrees with `joinGroup` itself. -/
theorem joinGroup_eq_read_commit (db : DB) (groupId userId : Nat)
    (joinCode : Option String) (now : Int) :
    joinGroup db groupId userId joinCode now =
      (joinRead db groupId userId joinCode).map
        (fun plan => joinCommit db groupId userId plan now) := by
  unfold joinGroup joinRead joinCommit
  cases hg : findGroup db groupId with
  | none => rfl
  | some group =>
    cases hm : findMembership db groupId userId <;>
      simp only [Except.map] <;> split_ifs <;> rfl

/-! Generic lemmas about `updateFirst`, `removeFirst` and `List.find?`. -/

section ListLemmas

variable {α : Type} {β : Type}

theorem countP_updateFirst (p q : α → Bool) (f : α → α) (l : List α) (a : α)
    (h : l.find? p = some a) :
    (updateFirst p f l).countP q + (if q a then 1 else 0)
      = l.countP q + (if q (f a) then 1 else 0) := by
  induction l with
  | nil => simp at h
  | cons x xs ih =>
    by_cases hp : p x
    · rw [List.find?_cons_of_pos _ hp] at h
      injection h with h
      subst h
      simp [updateFirst, hp, List.countP_cons]
      omega
    · rw [List.find?_cons_of_neg _ hp] at h
      have hx := ih h
      simp only [updateFirst, if_neg hp, List.countP_cons]
      omega

theorem countP_removeFirst (p q : α → Bool) (l : List α) (a : α)
    (h : l.find? p = some a) :
    (removeFirst p l).countP q + (if q a then 1 else 0) = l.countP q := by
  induction l with
  | nil => simp at h
  | cons x xs ih =>
    by_cases hp : p x
    · rw [List.find?_cons_of_pos _ hp] at h
      injection h with h
      subst h
      simp [removeFirst, hp, List.countP_cons]
    · rw [List.find?_cons_of_neg _ hp] at h
      have hx := ih h
      simp only [removeFirst, if_neg hp, List.countP_cons]
      omega

theorem find?_updateFirst_self (p : α → Bool) (f : α → α) (l : List α) (a : α)
    (h : l.find? p = some a) (hf : p (f a) = true) :
    (updateFirst p f l).find? p = some (f a) := by
  induction l with
  | nil => simp at h
  | cons x xs ih =>
    by_cases hp : p x
    · rw [List.find?_cons_of_pos _ hp] at h
      injection h with h
      subst h
      simp [updateFirst, hp, List.find?_cons_of_pos _ hf]
    · rw [List.find?_cons_of_neg _ hp] at h
      simp [updateFirst, hp, List.find?_cons_of_neg _ hp, ih h]

theorem find?_updateFirst_disjoint (p q : α → Bool) (f : α → α)
    (hpres : ∀ x, p (f x) = p x) (hd : ∀ x, q x = true → p x = false)
    (l : List α) : (updateFirst q f l).find? p = l.find? p := by
  induction l with
  | nil => rfl
  | cons x xs ih =>
    by_cases hq : q x
    · have hpx : p x = false := hd x hq
      have hpfx : p (f x) = false := by rw [hpres]; exact hpx
      simp [updateFirst, hq, List.find?_cons_of_neg, hpx, hpfx]
    · by_cases hp : p x
      · simp [updateFirst, hq, List.find?_cons_of_pos _ hp]
      · simp [updateFirst, hq, List.find?_cons_of_neg _ hp, ih]

theorem findq_append_none (p : α → Bool) (l₁ l₂ : List α)
    (h : l₁.find? p = none) : (l₁ ++ l₂).find? p = l₂.find? p := by
  induction l₁ with
  | nil => rfl
  | cons x xs ih =>
    by_cases hp : p x
    · rw [List.find?_cons_of_pos _ hp] at h
      exact absurd h (by simp)
    · rw [List.find?_cons_of_neg _ hp] at h
      simp [List.find?_cons_of_neg _ hp, ih h]

theorem findq_append_some (p : α → Bool) (l₁ l₂ : List α) (a : α)
    (h : l₁.find? p = some a) : (l₁ ++ l₂).find? p = some a := by
  induction l₁ with
  | nil => simp at h
  | cons x xs ih =>
    by_cases hp : p x
    · rw [List.find?_cons_of_pos _ hp] at h
      simp [List.find?_cons_of_pos _ hp, h]
    · rw [List.find?_cons_of_neg _ hp] at h
      simp [List.find?_cons_of_neg _ hp, ih h]

theorem map_key_updateFirst (key : α → β) (p : α → Bool) (f : α → α)
    (hf : ∀ x, p x = true → key (f x) = key x) (l : List α) :
    (updateFirst p f l).map key = l.map key := by
  induction l with
  | nil => rfl
  | cons x xs ih =>
    by_cases hp : p x
    · simp [updateFirst, hp, hf x hp]
    · simp [updateFirst, hp, ih]

theorem find?_filter_imp (p q : α → Bool)
    (himp : ∀ x, p x = true → q x = true) (l : List α) :
    (l.filter q).find? p = l.find? p := by
  induction l with
  | nil => rfl
  | cons x xs ih =>
    by_cases hp : p x
    · have hq : q x = true := himp x hp
      simp [List.filter_cons, hq, List.find?_cons_of_pos _ hp]
    · by_cases hq : q x
      · simp [List.filter_cons, hq, List.find?_cons_of_neg _ hp, ih]
      · simp [List.filter_cons, hq, List.find?_cons_of_neg _ hp, ih]

theorem find?_filter_none (p q : α → Bool)
    (hd : ∀ x, q x = true → p x = false) (l : List α) :
    (l.filter q).find? p = none := by
  rw [List.find?_eq_none]
  intro x hx
  have hmem := List.mem_filter.1 hx
  simp [hd x hmem.2]

theorem mem_updateFirst_weak (p : α → Bool) (f : α → α) (l : List α) :
    ∀ y ∈ updateFirst p f l, y ∈ l ∨ ∃ x ∈ l, p x = true ∧ y = f x := by
  induction l with
  | nil => intro y hy; simp [updateFirst] at hy
  | cons x xs ih =>
    intro y hy
    by_cases hp : p x
    · simp only [updateFirst, if_pos hp, List.mem_cons] at hy
      rcases hy with rfl | hy
      · exact Or.inr ⟨x, List.mem_cons_self x xs, hp, rfl⟩
      · exact Or.inl (List.mem_cons_of_mem _ hy)
    · simp only [updateFirst, if_neg hp, List.mem_cons] at hy
      rcases hy with rfl | hy
      · exact Or.inl (List.mem_cons_self y xs)
      · rcases ih y hy with h1 | ⟨z, hz, hpz, rfl⟩
        · exact Or.inl (List.mem_cons_of_mem _ h1)
        · exact Or.inr ⟨z, List.mem_cons_of_mem _ hz, hpz, rfl⟩

theorem mem_updateFirst_unique (p : α → Bool) (f : α → α) (l : List α)
    (a : α) (h : l.find? p = some a) (huniq : l.countP p ≤ 1) :
    ∀ y ∈ updateFirst p f l, y = f a ∨ (y ∈ l ∧ p y = false) := by
  induction l with
  | nil => simp at h
  | cons x xs ih =>
    intro y hy
    by_cases hp : p x
    · rw [List.find?_cons_of_pos _ hp] at h
      injection h with h
      subst h
      simp only [updateFirst, if_pos hp, List.mem_cons] at hy
      rcases hy with rfl | hy
      · exact Or.inl rfl
      · have hzero : xs.countP p = 0 := by
          rw [List.countP_cons, if_pos hp] at huniq
          omega
        have := (List.countP_eq_zero).1 hzero y hy
        exact Or.inr ⟨List.mem_cons_of_mem _ hy, by simpa using this⟩
    · rw [List.find?_cons_of_neg _ hp] at h
      have huniq2 : xs.countP p ≤ 1 := by
        rw [List.countP_cons] at huniq
        omega
      simp only [updateFirst, if_neg hp, List.mem_cons] at hy
      rcases hy with rfl | hy
      · exact Or.inr ⟨List.mem_cons_self y xs, by simpa using hp⟩
      · rcases ih h huniq2 y hy with h1 | ⟨h1, h2⟩
        · exact Or.inl h1
        · exact Or.inr ⟨List.mem_cons_of_mem _ h1, h2⟩

theorem mem_removeFirst_subset (p : α → Bool) (l : List α) :
    ∀ y ∈ removeFirst p l, y ∈ l := by
  induction l with
  | nil => intro y hy; simp [removeFirst] at hy
  | cons x xs ih =>
    intro y hy
    by_cases hp : p x
    · simp only [removeFirst, if_pos hp] at hy
      exact List.mem_cons_of_mem _ hy
    · simp only [removeFirst, if_neg hp, List.mem_cons] at hy
      rcases hy with rfl | hy
      · exact List.mem_cons_self y xs
      · exact List.mem_cons_of_mem _ (ih y hy)

theorem countP_key_le_one [DecidableEq β] (key : α → β) (l : List α)
    (h : (l.map key).Nodup) (k : β) :
    l.countP (fun x => key x == k) ≤ 1 := by
  have heq : l.countP (fun x => key x == k) = (l.map key).count k := by
    rw [List.count, List.countP_map]
    rfl
  rw [heq]
  exact List.nodup_iff_count_le_one.1 h k

end ListLemmas

/-! Well-formedness and the member-count invariant. -/

/-- Structural well-formedness of the database: group ids are unique
(distinct ObjectIds) and every membership row points at an existing
group. -/
def WF (db : DB) : Prop :=
  (db.groups.map Group.id).Nodup ∧
  ∀ m ∈ db.members, m.group ∈ db.groups.map Group.id

/-- The counter invariant of the spec: every group's denormalized
currentMemberCount equals its number of ACTIVE membership rows and never
exceeds capacity. -/
def Inv (db : DB) : Prop :=
  ∀ g ∈ db.groups, g.currentMemberCount = activeCount db.members g.id ∧
    g.currentMemberCount ≤ g.capacity

theorem findGroup_id (db : DB) (gid : Nat) (g : Group)
    (h : findGroup db gid = some g) : g.id = gid := by
  have := List.find?_some h
  simpa using this

theorem findGroup_mem (db : DB) (gid : Nat) (g : Group)
    (h : findGroup db gid = some g) : g ∈ db.groups :=
  List.mem_of_find?_eq_some h

/-- Core step for every counter-writing operation: if the new member list
has `n` ACTIVE rows for the group and unchanged counts elsewhere, then
writing `n` into the group's counter re-establishes the invariant. -/
theorem inv_write_counter (db : DB) (gid : Nat) (group : Group) (n : Nat)
    (g1 : Group) (hfind : findGroup db gid = some group)
    (hnd : (db.groups.map Group.id).Nodup) (hinv : Inv db)
    (hg1 : g1.id = gid ∧ g1.currentMemberCount = n ∧ g1.capacity = group.capacity)
    (hcap : n ≤ group.capacity) (ms' : List Membership)
    (hx : activeCount ms' gid = n)
    (hother : ∀ x, x ≠ gid → activeCount ms' x = activeCount db.members x) :
    ∀ g' ∈ updateFirst (fun g => g.id == gid) (fun _ => g1) db.groups,
      g'.currentMemberCount = activeCount ms' g'.id ∧
      g'.currentMemberCount ≤ g'.capacity := by
  intro g' hg'
  have huniq := countP_key_le_one Group.id db.groups hnd gid
  rcases mem_updateFirst_unique _ _ _ _ hfind huniq g' hg' with rfl | ⟨hmem, hne⟩
  · refine ⟨?_, ?_⟩
    · rw [hg1.1, hg1.2.1, hx]
    · rw [hg1.2.1, hg1.2.2]; exact hcap
  · have hne2 : g'.id ≠ gid := by simpa using hne
    have h1 := hinv g' hmem
    exact ⟨by rw [hother g'.id hne2]; exact h1.1, h1.2⟩

/-- The group-id list is unchanged by a counter (or flag) write that
keeps the id. -/
theorem map_id_write (db : DB) (gid : Nat) (g1 : Group) (hg1 : g1.id = gid) :
    (updateFirst (fun g => g.id == gid) (fun _ => g1) db.groups).map Group.id
      = db.groups.map Group.id := by
  apply map_key_updateFirst
  intro x hx
  have : x.id = gid := by simpa using hx
  rw [hg1, this]

theorem createGroup_preserves (db : DB) (userId gid capacity : Nat)
    (vis : GroupVisibility) (joinCode : Option String) (genCode : String)
    (now : Int) (db' : DB) (hwf : WF db) (hinv : Inv db)
    (h : createGroup db userId gid capacity vis joinCode genCode now = .ok db') :
    WF db' ∧ Inv db' := by
  unfold createGroup at h
  split at h
  · exact absurd h (by simp)
  next hfresh =>
    split at h
    · exact absurd h (by simp)
    next hcap =>
      simp only [Except.ok.injEq] at h
      subst h
      have hfresh2 : gid ∉ db.groups.map Group.id := by
        intro hmem
        rcases List.mem_map.1 hmem with ⟨g, hg, hgid⟩
        exact hfresh (List.any_eq_true.2 ⟨g, hg, by simp [hgid]⟩)
      have hcap2 : 2 ≤ capacity := by
        simp only [Bool.or_eq_true, decide_eq_true_eq, not_or] at hcap
        omega
      have hnomem : ∀ m ∈ db.members, ¬(m.group == gid && m.status == MemberStatus.active) = true := by
        intro m hm hcontra
        simp only [Bool.and_eq_true, beq_iff_eq] at hcontra
        exact hfresh2 (hcontra.1 ▸ hwf.2 m hm)
      constructor
      · constructor
        · simp only [List.map_append, List.map_cons, List.map_nil]
          rw [List.nodup_append]
          refine ⟨hwf.1, List.nodup_singleton _, ?_⟩
          intro a ha hb
          simp only [List.mem_singleton] at hb
          subst hb
          exact hfresh2 ha
        · intro m hm
          simp only [List.map_append, List.map_cons, List.map_nil]
          rcases List.mem_append.1 hm with hm1 | hm2
          · exact List.mem_append_left _ (hwf.2 m hm1)
          · simp at hm2
            subst hm2
            exact List.mem_append_right _ (by simp)
      · intro g' hg'
        rcases List.mem_append.1 hg' with hg1 | hg2
        · have h1 := hinv g' hg1
          have hne : g'.id ≠ gid := by
            intro hcontra
            exact hfresh2 (hcontra ▸ List.mem_map_of_mem Group.id hg1)
          refine ⟨?_, h1.2⟩
          rw [h1.1]
          unfold activeCount
          rw [List.countP_append]
          have : List.countP (fun m => m.group == g'.id && m.status == MemberStatus.active)
              ([⟨gid, userId, .leader, .active, now⟩] : List Membership) = 0 := by
            simp [List.countP_cons]
            intro hcontra
            exact absurd hcontra.symm hne
          omega
        · simp at hg2
          subst hg2
          refine ⟨?_, by simp only []; omega⟩
          unfold activeCount
          rw [List.countP_append]
          have hz : db.members.countP (fun m => m.group == gid && m.status == MemberStatus.active) = 0 :=
            List.countP_eq_zero.2 hnomem
          simp [List.countP_cons, hz]

theorem joinGroup_preserves (db : DB) (gid uid : Nat) (code : Option String)
    (now : Int) (db' : DB) (hwf : WF db) (hinv : Inv db)
    (h : joinGroup db gid uid code now = .ok db') : WF db' ∧ Inv db' := by
  unfold joinGroup at h
  split at h
  · exact absurd h (by simp)
  next group hg =>
    have hgid := findGroup_id db gid group hg
    have hmemg := findGroup_mem db gid group hg
    have hinvg := hinv group hmemg
    split at h
    · exact absurd h (by simp)
    next hact =>
      split at h
      · exact absurd h (by simp)
      next hcap =>
        have hcap2 : group.currentMemberCount < group.capacity := by omega
        split at h
        next m0 hm =>
          split at h
          · exact absurd h (by simp)
          next hs1 =>
            split at h
            · exact absurd h (by simp)
            next hs2 =>
              split at h
              · exact absurd h (by simp)
              next hcode =>
                simp only [Except.ok.injEq] at h
                subst h
                have hkey := List.find?_some hm
                simp only [memberKey, Bool.and_eq_true, beq_iff_eq] at hkey
                have hs1b : m0.status ≠ MemberStatus.active := by
                  simpa using hs1
                have hcnt := countP_updateFirst (memberKey gid uid)
                  (fun m => m.group == gid && m.status == MemberStatus.active)
                  (fun _ => { m0 with status := .active, joinedAt := now })
                  db.members m0 hm
                dsimp only at hcnt
                have e1 : (m0.group == gid && m0.status == MemberStatus.active) = false := by
                  simp [hs1b]
                have e2 : (m0.group == gid &&
                    (MemberStatus.active == MemberStatus.active)) = true := by
                  simp [hkey.1]
                rw [e1, e2] at hcnt
                rw [show (if false = true then 1 else 0) = 0 from rfl,
                  show (if true = true then 1 else 0) = 1 from rfl] at hcnt
                have hx : activeCount (updateFirst (memberKey gid uid)
                    (fun _ => { m0 with status := .active, joinedAt := now })
                    db.members) gid = group.currentMemberCount + 1 := by
                  have hcg : group.currentMemberCount
                      = activeCount db.members gid := by
                    rw [hinvg.1, hgid]
                  unfold activeCount at hcg ⊢
                  omega
                have hother : ∀ x, x ≠ gid →
                    activeCount (updateFirst (memberKey gid uid)
                      (fun _ => { m0 with status := .active, joinedAt := now })
                      db.members) x = activeCount db.members x := by
                  intro x hne
                  have hc2 := countP_updateFirst (memberKey gid uid)
                    (fun m => m.group == x && m.status == MemberStatus.active)
                    (fun _ => { m0 with status := .active, joinedAt := now })
                    db.members m0 hm
                  dsimp only at hc2
                  have e3 : (m0.group == x && m0.status == MemberStatus.active) = false := by
                    simp [hs1b]
                  have e4 : (m0.group == x &&
                      (MemberStatus.active == MemberStatus.active)) = false := by
                    simp [hkey.1]
                    exact fun hcontra => hne hcontra.symm
                  rw [e3, e4] at hc2
                  rw [show (if false = true then 1 else 0) = 0 from rfl] at hc2
                  unfold activeCount
                  omega
                have hmap := map_id_write db gid
                  { group with currentMemberCount := group.currentMemberCount + 1 }
                  (by simpa using hgid)
                constructor
                · constructor
                  · rw [hmap]; exact hwf.1
                  · intro m hm2
                    rw [hmap]
                    rcases mem_updateFirst_weak _ _ _ m hm2 with h1 | ⟨x, _, _, rfl⟩
                    · exact hwf.2 m h1
                    · simp only [hkey.1]
                      exact hgid ▸ List.mem_map_of_mem Group.id hmemg
                · exact inv_write_counter db gid group (group.currentMemberCount + 1)
                    _ hg hwf.1 hinv ⟨by simp [hgid], by simp, by simp⟩
                    (by omega) _ hx hother
        next hm =>
          split at h
          · exact absurd h (by simp)
          next hcode =>
            simp only [Except.ok.injEq] at h
            subst h
            have hx : activeCount (db.members ++ [⟨gid, uid, .member, .active, now⟩]) gid
                = group.currentMemberCount + 1 := by
              unfold activeCount
              rw [List.countP_append]
              have hcg : group.currentMemberCount = activeCount db.members gid := by
                rw [hinvg.1, hgid]
              unfold activeCount at hcg
              simp [List.countP_cons]
              omega
            have hother : ∀ x, x ≠ gid →
                activeCount (db.members ++ [⟨gid, uid, .member, .active, now⟩]) x
                  = activeCount db.members x := by
              intro x hne
              unfold activeCount
              rw [List.countP_append]
              have : List.countP (fun m => m.group == x && m.status == MemberStatus.active)
                  ([⟨gid, uid, .member, .active, now⟩] : List Membership) = 0 := by
                simp [List.countP_cons]
                intro hcontra
                exact absurd hcontra.symm hne
              omega
            have hmap := map_id_write db gid
              { group with currentMemberCount := group.currentMemberCount + 1 }
              (by simpa using hgid)
            constructor
            · constructor
              · rw [hmap]; exact hwf.1
              · intro m hm2
                rw [hmap]
                rcases List.mem_append.1 hm2 with h1 | h2
                · exact hwf.2 m h1
                · simp at h2
                  subst h2
                  exact hgid ▸ List.mem_map_of_mem Group.id hmemg
            · exact inv_write_counter db gid group (group.currentMemberCount + 1)
                _ hg hwf.1 hinv ⟨by simp [hgid], by simp, by simp⟩
                (by omega) _ hx hother

/-- Shared ok-branch argument of leaveGroup and removeMember: deleting
the found ACTIVE row and writing the decremented counter preserves both
well-formedness and the invariant. -/
theorem remove_active_row_preserves (db : DB) (gid uid : Nat) (group : Group)
    (m0 : Membership) (hwf : WF db) (hinv : Inv db)
    (hg : findGroup db gid = some group)
    (hma : db.members.find?
      (fun m => m.group == gid && m.user == uid &&
        m.status == MemberStatus.active) = some m0) :
    WF { db with
        members := removeFirst
          (fun m => m.group == gid && m.user == uid &&
            m.status == MemberStatus.active) db.members,
        groups := updateFirst (fun g => g.id == gid)
          (fun _ => { group with currentMemberCount := group.currentMemberCount - 1 })
          db.groups } ∧
    Inv { db with
        members := removeFirst
          (fun m => m.group == gid && m.user == uid &&
            m.status == MemberStatus.active) db.members,
        groups := updateFirst (fun g => g.id == gid)
          (fun _ => { group with currentMemberCount := group.currentMemberCount - 1 })
          db.groups } := by
  have hgid := findGroup_id db gid group hg
  have hmemg := findGroup_mem db gid group hg
  have hinvg := hinv group hmemg
  have hkey := List.find?_some hma
  simp only [Bool.and_eq_true, beq_iff_eq] at hkey
  have hcnt := countP_removeFirst
    (fun m => m.group == gid && m.user == uid && m.status == MemberStatus.active)
    (fun m => m.group == gid && m.status == MemberStatus.active)
    db.members m0 hma
  dsimp only at hcnt
  have e1 : (m0.group == gid && m0.status == MemberStatus.active) = true := by
    simp [hkey.1.1, hkey.2]
  rw [e1, show (if true = true then 1 else 0) = 1 from rfl] at hcnt
  have hcg : group.currentMemberCount = activeCount db.members gid := by
    rw [hinvg.1, hgid]
  have hx : activeCount (removeFirst
      (fun m => m.group == gid && m.user == uid &&
        m.status == MemberStatus.active) db.members) gid
      = group.currentMemberCount - 1 := by
    unfold activeCount at hcg ⊢
    omega
  have hother : ∀ x, x ≠ gid →
      activeCount (removeFirst
        (fun m => m.group == gid && m.user == uid &&
          m.status == MemberStatus.active) db.members) x
        = activeCount db.members x := by
    intro x hne
    have hc2 := countP_removeFirst
      (fun m => m.group == gid && m.user == uid && m.status == MemberStatus.active)
      (fun m => m.group == x && m.status == MemberStatus.active)
      db.members m0 hma
    dsimp only at hc2
    have e2 : (m0.group == x && m0.status == MemberStatus.active) = false := by
      simp [hkey.1.1]
      intro hcontra
      exact absurd hcontra.symm hne
    rw [e2, show (if false = true then 1 else 0) = 0 from rfl] at hc2
    unfold activeCount
    omega
  have hmap := map_id_write db gid
    { group with currentMemberCount := group.currentMemberCount - 1 }
    (by simpa using hgid)
  refine ⟨⟨by rw [hmap]; exact hwf.1, ?_⟩, ?_⟩
  · intro m hm2
    rw [hmap]
    exact hwf.2 m (mem_removeFirst_subset _ _ m hm2)
  · exact inv_write_counter db gid group (group.currentMemberCount - 1)
      _ hg hwf.1 hinv ⟨by simp [hgid], by simp, by simp⟩
      (by omega) _ hx hother

theorem leaveGroup_preserves (db : DB) (gid uid : Nat) (db' : DB)
    (hwf : WF db) (hinv : Inv db)
    (h : leaveGroup db gid uid = .ok db') : WF db' ∧ Inv db' := by
  unfold leaveGroup at h
  split at h
  · exact absurd h (by simp)
  next group hg =>
    split at h
    · exact absurd h (by simp)
    next hlead =>
      split at h
      · exact absurd h (by simp)
      next m0 hma =>
        simp only [Except.ok.injEq] at h
        subst h
        unfold findActiveMembership at hma
        exact remove_active_row_preserves db gid uid group m0 hwf hinv hg hma

theorem removeMember_preserves (db : DB) (gid uid : Nat) (db' : DB)
    (hwf : WF db) (hinv : Inv db)
    (h : removeMember db gid uid = .ok db') : WF db' ∧ Inv db' := by
  unfold removeMember at h
  split at h
  · exact absurd h (by simp)
  next group hg =>
    split at h
    · exact absurd h (by simp)
    next hlead =>
      split at h
      · exact absurd h (by simp)
      next m0 hma =>
        simp only [Except.ok.injEq] at h
        subst h
        unfold findActiveMembership at hma
        exact remove_active_row_preserves db gid uid group m0 hwf hinv hg hma

theorem addMember_preserves (db : DB) (gid uid : Nat) (now : Int) (db' : DB)
    (hwf : WF db) (hinv : Inv db)
    (h : addMember db gid uid now = .ok db') : WF db' ∧ Inv db' := by
  unfold addMember at h
  split at h
  · exact absurd h (by simp)
  next group hg =>
    have hgid := findGroup_id db gid group hg
    have hmemg := findGroup_mem db gid group hg
    have hinvg := hinv group hmemg
    split at h
    · exact absurd h (by simp)
    next hact =>
      split at h
      · exact absurd h (by simp)
      next hcap =>
        have hcap2 : group.currentMemberCount < group.capacity := by omega
        split at h
        · exact absurd h (by simp)
        next user huser =>
          split at h
          · exact absurd h (by simp)
          next huact =>
            split at h
            next m0 hm =>
              split at h
              · exact absurd h (by simp)
              next hs1 =>
                split at h
                · exact absurd h (by simp)
                next hs2 =>
                  simp only [Except.ok.injEq] at h
                  subst h
                  have hkey := List.find?_some hm
                  simp only [memberKey, Bool.and_eq_true, beq_iff_eq] at hkey
                  have hs1b : m0.status ≠ MemberStatus.active := by
                    simpa using hs1
                  have hcnt := countP_updateFirst (memberKey gid uid)
                    (fun m => m.group == gid && m.status == MemberStatus.active)
                    (fun _ => { m0 with status := .active, joinedAt := now })
                    db.members m0 hm
                  dsimp only at hcnt
                  have e1 : (m0.group == gid && m0.status == MemberStatus.active) = false := by
                    simp [hs1b]
                  have e2 : (m0.group == gid &&
                      (MemberStatus.active == MemberStatus.active)) = true := by
                    simp [hkey.1]
                  rw [e1, e2] at hcnt
                  rw [show (if false = true then 1 else 0) = 0 from rfl,
                    show (if true = true then 1 else 0) = 1 from rfl] at hcnt
                  have hx : activeCount (updateFirst (memberKey gid uid)
                      (fun _ => { m0 with status := .active, joinedAt := now })
                      db.members) gid = group.currentMemberCount + 1 := by
                    have hcg : group.currentMemberCount
                        = activeCount db.members gid := by
                      rw [hinvg.1, hgid]
                    unfold activeCount at hcg ⊢
                    omega
                  have hother : ∀ x, x ≠ gid →
                      activeCount (updateFirst (memberKey gid uid)
                        (fun _ => { m0 with status := .active, joinedAt := now })
                        db.members) x = activeCount db.members x := by
                    intro x hne
                    have hc2 := countP_updateFirst (memberKey gid uid)
                      (fun m => m.group == x && m.status == MemberStatus.active)
                      (fun _ => { m0 with status := .active, joinedAt := now })
                      db.members m0 hm
                    dsimp only at hc2
                    have e3 : (m0.group == x && m0.status == MemberStatus.active) = false := by
                      simp [hs1b]
                    have e4 : (m0.group == x &&
                        (MemberStatus.active == MemberStatus.active)) = false := by
                      simp [hkey.1]
                      exact fun hcontra => hne hcontra.symm
                    rw [e3, e4] at hc2
                    rw [show (if false = true then 1 else 0) = 0 from rfl] at hc2
                    unfold activeCount
                    omega
                  have hmap := map_id_write db gid
                    { group with currentMemberCount := group.currentMemberCount + 1 }
                    (by simpa using hgid)
                  constructor
                  · constructor
                    · rw [hmap]; exact hwf.1
                    · intro m hm2
                      rw [hmap]
                      rcases mem_updateFirst_weak _ _ _ m hm2 with h1 | ⟨x, _, _, rfl⟩
                      · exact hwf.2 m h1
                      · simp only [hkey.1]
                        exact hgid ▸ List.mem_map_of_mem Group.id hmemg
                  · exact inv_write_counter db gid group (group.currentMemberCount + 1)
                      _ hg hwf.1 hinv ⟨by simp [hgid], by simp, by simp⟩
                      (by omega) _ hx hother
            next hm =>
              simp only [Except.ok.injEq] at h
              subst h
              have hx : activeCount (db.members ++ [⟨gid, uid, .member, .active, now⟩]) gid
                  = group.currentMemberCount + 1 := by
                unfold activeCount
                rw [List.countP_append]
                have hcg : group.currentMemberCount = activeCount db.members gid := by
                  rw [hinvg.1, hgid]
                unfold activeCount at hcg
                simp [List.countP_cons]
                omega
              have hother : ∀ x, x ≠ gid →
                  activeCount (db.members ++ [⟨gid, uid, .member, .active, now⟩]) x
                    = activeCount db.members x := by
                intro x hne
                unfold activeCount
                rw [List.countP_append]
                have : List.countP (fun m => m.group == x && m.status == MemberStatus.active)
                    ([⟨gid, uid, .member, .active, now⟩] : List Membership) = 0 := by
                  simp [List.countP_cons]
                  intro hcontra
                  exact absurd hcontra.symm hne
                omega
              have hmap := map_id_write db gid
                { group with currentMemberCount := group.currentMemberCount + 1 }
                (by simpa using hgid)
              constructor
              · constructor
                · rw [hmap]; exact hwf.1
                · intro m hm2
                  rw [hmap]
                  rcases List.mem_append.1 hm2 with h1 | h2
                  · exact hwf.2 m h1
                  · simp at h2
                    subst h2
                    exact hgid ▸ List.mem_map_of_mem Group.id hmemg
              · exact inv_write_counter db gid group (group.currentMemberCount + 1)
                  _ hg hwf.1 hinv ⟨by simp [hgid], by simp, by simp⟩
                  (by omega) _ hx hother

/-- The committed membership-lifecycle operations (group creation, join,
leave, add-member, remove-member) with their request parameters. -/
inductive MOp where
  | createG (userId gid capacity : Nat) (visibility : GroupVisibility)
      (joinCode : Option String) (generatedCode : String) (now : Int)
  | joinG (gid uid : Nat) (code : Option String) (now : Int)
  | leaveG (gid uid : Nat)
  | addG (gid target : Nat) (now : Int)
  | removeG (gid target : Nat)
  deriving DecidableEq, Repr

/-- Dispatch one operation. -/
def applyOp (db : DB) : MOp → Except ApiErr DB
  | .createG userId gid capacity vis code gen now =>
      createGroup db userId gid capacity vis code gen now
  | .joinG gid uid code now => joinGroup db gid uid code now
  | .leaveG gid uid => leaveGroup db gid uid
  | .addG gid target now => addMember db gid target now
  | .removeG gid target => removeMember db gid target

/-- Sequential execution of a request list: a successful operation
commits its writes, a failed one aborts its transaction and leaves the
state unchanged. -/
def runOps (db : DB) (ops : List MOp) : DB :=
  ops.foldl (fun d op => match applyOp d op with
    | .ok d2 => d2
    | .error _ => d) db

theorem applyOp_preserves (db : DB) (op : MOp) (db' : DB)
    (hwf : WF db) (hinv : Inv db) (h : applyOp db op = .ok db') :
    WF db' ∧ Inv db' := by
  cases op with
  | createG userId gid capacity vis code gen now =>
    exact createGroup_preserves db userId gid capacity vis code gen now db' hwf hinv h
  | joinG gid uid code now =>
    exact joinGroup_preserves db gid uid code now db' hwf hinv h
  | leaveG gid uid =>
    exact leaveGroup_preserves db gid uid db' hwf hinv h
  | addG gid target now =>
    exact addMember_preserves db gid target now db' hwf hinv h
  | removeG gid target =>
    exact removeMember_preserves db gid target db' hwf hinv h

/-- Concrete states for the C1 counterexample: a fresh group created by
user 1 with capacity 2, then soft-deleted by its leader. -/
def c1db1 : DB :=
  ⟨[⟨10, 1, 2, 1, .publicV, none, true⟩], [⟨10, 1, .leader, .active, 0⟩], []⟩

/-- State after the leader deletes the group of `c1db1`: the membership
row is INACTIVE, but the counter still reads 1. -/
def c1db2 : DB :=
  ⟨[⟨10, 1, 2, 1, .publicV, none, false⟩], [⟨10, 1, .leader, .inactive, 0⟩], []⟩

/-- C1 counterexample: the claim includes deleteGroup among the
operations after which `currentMemberCount` equals the number of ACTIVE
rows, but deleteGroup turns every membership INACTIVE and never touches
the counter.  Starting from the empty store, createGroup then deleteGroup
(both committed) leaves the group with currentMemberCount 1 while it has
0 ACTIVE membership rows. -/
theorem deleteGroup_breaks_count_invariant :
    createGroup ⟨[], [], []⟩ 1 10 2 GroupVisibility.publicV none "X" 0
      = .ok c1db1 ∧
    deleteGroup c1db1 10 1 = .ok c1db2 ∧
    findGroup c1db2 10 = some ⟨10, 1, 2, 1, .publicV, none, false⟩ ∧
    activeCount c1db2.members 10 = 0 ∧
    (1 : Nat) ≠ 0 :=
  ⟨rfl, rfl, rfl, rfl, by decide⟩

/-- C1 (amended): for every group and after every committed operation
among createGroup, join, leave, addMember and removeMember (executed
sequentially — deleteGroup excluded, since it zeroes the ACTIVE rows
without resetting the counter), the group's currentMemberCount equals the
number of ACTIVE membership rows for that group, and
currentMemberCount is at most capacity. -/
theorem memberCount_invariant_after_sequential_ops (db : DB)
    (ops : List MOp) (hwf : WF db) (hinv : Inv db) :
    WF (runOps db ops) ∧ Inv (runOps db ops) := by
  induction ops generalizing db with
  | nil => exact ⟨hwf, hinv⟩
  | cons op ops ih =>
    unfold runOps at ih ⊢
    rw [List.foldl_cons]
    cases hop : applyOp db op with
    | ok d2 =>
      have hp := applyOp_preserves db op d2 hwf hinv hop
      exact ih d2 hp.1 hp.2
    | error e =>
      exact ih db hwf hinv

/-- Operation list exercising the amended C1 theorem: create, two joins,
a leave, a removal and a re-add. -/
def c1ops : List MOp :=
  [.createG 1 10 3 .publicV none "X" 0, .joinG 10 2 none 5, .joinG 10 3 none 6,
   .leaveG 10 2, .removeG 10 3, .addG 10 2 7]

theorem memberCount_invariant_after_sequential_ops_witness :
    WF (runOps ⟨[], [], []⟩ c1ops) ∧ Inv (runOps ⟨[], [], []⟩ c1ops) :=
  memberCount_invariant_after_sequential_ops ⟨[], [], []⟩ c1ops
    (by unfold WF; simp) (by unfold Inv; simp)

/-- Concrete state for the C10 counterexample: a private group whose only
active member is its leader, user 1. -/
def c10db : DB :=
  ⟨[⟨10, 1, 50, 1, .privateV, some "ABCD1234", true⟩],
   [⟨10, 1, .leader, .active, 0⟩], []⟩

/-- C10 counterexample: the claim says getGroup fails Forbidden for a
private group even when no requesterId is supplied, but the source guards
the private check with `group.visibility === PRIVATE && userId`, so an
anonymous request for the private group of `c10db` succeeds. -/
theorem getGroupById_anonymous_counterexample :
    (findGroup c10db 10).map Group.visibility = some GroupVisibility.privateV ∧
    getGroupById c10db 10 none
      = .ok ⟨10, 1, 50, 1, .privateV, some "ABCD1234", true⟩ :=
  ⟨rfl, rfl⟩

/-- C10 (amended): getGroup fails Forbidden when the group is private and
a requesterId IS supplied that is neither the leader nor an active
member; when no requesterId is supplied the private check is skipped and
the group is returned. -/
theorem getGroupById_private_access (db : DB) (gid uid : Nat) (g : Group)
    (hg : findGroup db gid = some g) :
    (g.visibility = .privateV → findActiveMembership db gid uid = none →
      g.leader ≠ uid → getGroupById db gid (some uid) = .error .forbidden) ∧
    getGroupById db gid none = .ok g := by
  constructor
  · intro hvis hmem hlead
    unfold getGroupById
    rw [hg]
    simp [hvis, hmem, hlead]
  · unfold getGroupById
    rw [hg]

theorem getGroupById_private_access_witness :
    (getGroupById c10db 10 (some 2) = .error .forbidden) ∧
    getGroupById c10db 10 none
      = .ok ⟨10, 1, 50, 1, .privateV, some "ABCD1234", true⟩ :=
  have h := getGroupById_private_access c10db 10 2
    ⟨10, 1, 50, 1, .privateV, some "ABCD1234", true⟩ rfl
  ⟨h.1 rfl rfl (by decide), h.2⟩

/-- Message used by the edit-window counterexample: sent by user 1 at
time 0 with content `draft`, not deleted. -/
def c4msg : Message := ⟨1, 10, 1, "draft", [], false, false, [], false, [], 0⟩

/-- C4 counterexample: the claim says edit fails with BadRequest when
`now - createdAt >= 15 minutes`, so that an edit at exactly
createdAt + 15:00 fails.  The source uses the strict comparison
`timeSinceCreation > fifteenMinutes` and throws ForbiddenError: an edit
at exactly 900000 ms succeeds, and one at 900001 ms fails with Forbidden,
not BadRequest. -/
theorem editMessage_window_counterexample :
    editMessage c4msg 1 "final" 900000
      = .ok ⟨1, 10, 1, "final", [], false, true, [⟨"draft", 900000⟩], false, [], 0⟩ ∧
    editMessage c4msg 1 "final" 900001 = .error .forbidden ∧
    ApiErr.forbidden ≠ ApiErr.badRequest :=
  ⟨rfl, rfl, by decide⟩

/-- C4 (amended): edit fails with Forbidden when the requester differs
from the sender; with BadRequest when the message is deleted; with
Forbidden (not BadRequest) when now - createdAt is strictly greater than
15 minutes, so an edit at exactly createdAt + 15:00 succeeds and one at
14:59 succeeds; on success it appends exactly one entry
(pre-edit content, now) to editHistory, replaces the content and sets
isEdited. -/
theorem editMessage_contract (msg : Message) (uid : Nat)
    (newContent : String) (now : Int) :
    (msg.sender ≠ uid → editMessage msg uid newContent now = .error .forbidden) ∧
    (msg.sender = uid → msg.isDeleted = true →
      editMessage msg uid newContent now = .error .badRequest) ∧
    (msg.sender = uid → msg.isDeleted = false →
      now - msg.createdAt > fifteenMinutes →
      editMessage msg uid newContent now = .error .forbidden) ∧
    (msg.sender = uid → msg.isDeleted = false →
      now - msg.createdAt ≤ fifteenMinutes →
      editMessage msg uid newContent now = .ok { msg with
        editHistory := msg.editHistory ++ [⟨msg.content, now⟩],
        content := newContent,
        isEdited := true }) := by
  refine ⟨?_, ?_, ?_, ?_⟩
  · intro h1
    unfold editMessage
    simp [h1]
  · intro h1 h2
    unfold editMessage
    simp [h1, h2]
  · intro h1 h2 h3
    unfold editMessage
    simp [h1, h2, h3]
  · intro h1 h2 h3
    unfold editMessage
    simp [h1, h2, not_lt.mpr h3]

theorem editMessage_contract_witness :
    editMessage c4msg 2 "final" 10 = .error .forbidden ∧
    editMessage c4msg 1 "final" 899999
      = .ok { c4msg with
              editHistory := [⟨"draft", 899999⟩],
              content := "final", isEdited := true } ∧
    editMessage c4msg 1 "final" 900000
      = .ok { c4msg with
              editHistory := [⟨"draft", 900000⟩],
              content := "final", isEdited := true } :=
  ⟨(editMessage_contract c4msg 2 "final" 10).1 (by decide),
   (editMessage_contract c4msg 1 "final" 899999).2.2.2 rfl rfl (by decide),
   (editMessage_contract c4msg 1 "final" 900000).2.2.2 rfl rfl (by decide)⟩

/-- Store whose group 10 has user 1 (the leader) as its only active
member; user 99 has no membership row at all. -/
def c5db : DB :=
  ⟨[⟨10, 1, 50, 1, .publicV, none, true⟩], [⟨10, 1, .leader, .active, 0⟩], []⟩

/-- Message of group 10 used by the unguarded-mutation theorems. -/
def c5msg : Message := ⟨5, 10, 1, "hello", [], false, false, [], false, [], 0⟩

/-- C5: the routes for react and markRead carry only `authenticate`
(part_001 lines 75 and 89, both documented Group Members Only) and their
handlers never consult the membership ledger, so user 99 — who has no
membership in group 10 — successfully reacts to and marks read a message
of that group, writing to the message store. -/
theorem react_markRead_skip_membership_check :
    findActiveMembership c5db 10 99 = none ∧
    findMembership c5db 10 99 = none ∧
    reactToMessage [c5msg] 5 99 "+1"
      = .ok { c5msg with reactions := [⟨"+1", [99]⟩] } ∧
    markAsRead [c5msg] 5 99 = .ok [{ c5msg with readBy := [99] }] :=
  ⟨rfl, rfl, rfl, rfl⟩

/-- Deleted message of group 10 (isDeleted true, content retained). -/
def c6msg : Message := ⟨6, 10, 1, "gone", [], false, false, [], true, [], 0⟩

/-- C6: the claim says edit, react and togglePin all fail on a deleted
message.  Only edit checks isDeleted (BadRequest); react and togglePin
have no such check, so both succeed on the deleted message and mutate its
reactions and pin flag. -/
theorem deleted_message_still_mutable :
    c6msg.isDeleted = true ∧
    editMessage c6msg 1 "x" 1 = .error .badRequest ∧
    reactToMessage [c6msg] 6 2 "+1"
      = .ok { c6msg with reactions := [⟨"+1", [2]⟩] } ∧
    togglePinMessage [c6msg] [⟨10, 1, 50, 1, .publicV, none, true⟩] 6 1
      = .ok [{ c6msg with isPinned := true }] :=
  ⟨rfl, rfl, rfl, rfl⟩

/-- Starting state of the join race: group 10 at capacity 2 with one
active member (the leader). -/
def c2db0 : DB :=
  ⟨[⟨10, 1, 2, 1, .publicV, none, true⟩], [⟨10, 1, .leader, .active, 0⟩], []⟩

/-- Plan both racing joins compute from the same snapshot of `c2db0`. -/
def c2plan : Group × Option Membership :=
  (⟨10, 1, 2, 1, .publicV, none, true⟩, none)

/-- State after the interleaving read(2), read(3), commit(2), commit(3). -/
def c2dbFinal : DB :=
  joinCommit (joinCommit c2db0 10 2 c2plan 5) 10 3 c2plan 6

/-- C2: with only one free slot, two joins whose read-check phases both
run against the same snapshot (the source reads the group outside the
transaction and only the writes commit together) both pass the capacity
check and both commit: three ACTIVE rows result for a capacity-2 group,
while the counter — each commit writing its stale snapshot plus one —
reads 2 and has drifted from the ledger.  Neither attempt fails with
Forbidden. -/
theorem concurrent_joins_exceed_capacity :
    joinRead c2db0 10 2 none = .ok c2plan ∧
    joinRead c2db0 10 3 none = .ok c2plan ∧
    activeCount c2dbFinal.members 10 = 3 ∧
    findGroup c2dbFinal 10 = some ⟨10, 1, 2, 2, .publicV, none, true⟩ ∧
    (2 : Nat) < 3 :=
  ⟨rfl, rfl, rfl, rfl, by decide⟩

/-- C7: at most 5 messages per group are pinned.  The theorem packages
(i) preservation of the at-most-5 invariant by every successful
togglePin, (ii) BadRequest when the leader pins while 5 are already
pinned, (iii) unpin by the leader always succeeds, (iv) unpin decrements
the group's pinned count, and (v) pinning succeeds below the cap and
increments the count. -/
theorem togglePin_contract (messages : List Message) (groups : List Group)
    (messageId userId : Nat) :
    ((∀ gid, pinnedCount messages gid ≤ 5) →
      ∀ messages2, togglePinMessage messages groups messageId userId = .ok messages2 →
      ∀ gid, pinnedCount messages2 gid ≤ 5) ∧
    (∀ m g, messages.find? (fun x => x.id == messageId) = some m →
      groups.find? (fun x => x.id == m.groupId) = some g →
      g.leader = userId → m.isPinned = false →
      5 ≤ pinnedCount messages m.groupId →
      togglePinMessage messages groups messageId userId = .error .badRequest) ∧
    (∀ m g, messages.find? (fun x => x.id == messageId) = some m →
      groups.find? (fun x => x.id == m.groupId) = some g →
      g.leader = userId → m.isPinned = true →
      togglePinMessage messages groups messageId userId
        = .ok (updateFirst (fun x => x.id == messageId)
            (fun _ => { m with isPinned := false }) messages)) ∧
    (∀ m g messages2, messages.find? (fun x => x.id == messageId) = some m →
      groups.find? (fun x => x.id == m.groupId) = some g →
      g.leader = userId → m.isPinned = true →
      togglePinMessage messages groups messageId userId = .ok messages2 →
      pinnedCount messages2 m.groupId + 1 = pinnedCount messages m.groupId) ∧
    (∀ m g, messages.find? (fun x => x.id == messageId) = some m →
      groups.find? (fun x => x.id == m.groupId) = some g →
      g.leader = userId → m.isPinned = false →
      pinnedCount messages m.groupId < 5 →
      togglePinMessage messages groups messageId userId
        = .ok (updateFirst (fun x => x.id == messageId)
            (fun _ => { m with isPinned := true }) messages) ∧
      pinnedCount (updateFirst (fun x => x.id == messageId)
          (fun _ => { m with isPinned := true }) messages) m.groupId
        = pinnedCount messages m.groupId + 1) := by
  refine ⟨?_, ?_, ?_, ?_, ?_⟩
  · -- (i) invariant preservation
    intro hfive messages2 hok gid
    unfold togglePinMessage at hok
    split at hok
    · exact absurd hok (by simp)
    next m hfm =>
      split at hok
      · exact absurd hok (by simp)
      next g hfg =>
        split at hok
        · exact absurd hok (by simp)
        next hlead =>
          dsimp only at hok
          split at hok
          next hpin =>
            split at hok
            · exact absurd hok (by simp)
            next hlt =>
              simp only [Except.ok.injEq] at hok
              subst hok
              have hpin2 : m.isPinned = false := by simpa using hpin
              have hcnt := countP_updateFirst (fun x => x.id == messageId)
                (fun x => x.groupId == gid && x.isPinned)
                (fun _ => { m with isPinned := !m.isPinned }) messages m hfm
              dsimp only at hcnt
              have e1 : (m.groupId == gid && m.isPinned) = false := by
                simp [hpin2]
              rw [e1, show (if false = true then 1 else 0) = 0 from rfl] at hcnt
              by_cases hg2 : m.groupId = gid
              · have e2 : (m.groupId == gid && !m.isPinned) = true := by
                  simp [hpin2, hg2]
                rw [e2, show (if true = true then 1 else 0) = 1 from rfl] at hcnt
                unfold pinnedCount at hlt ⊢
                rw [hg2] at hlt
                omega
              · have e2 : (m.groupId == gid && !m.isPinned) = false := by
                  simp [hg2]
                rw [e2, show (if false = true then 1 else 0) = 0 from rfl] at hcnt
                have := hfive gid
                unfold pinnedCount at this ⊢
                omega
          next hpin =>
            simp only [Except.ok.injEq] at hok
            subst hok
            have hpin2 : m.isPinned = true := by
              simpa using hpin
            have hcnt := countP_updateFirst (fun x => x.id == messageId)
              (fun x => x.groupId == gid && x.isPinned)
              (fun _ => { m with isPinned := !m.isPinned }) messages m hfm
            dsimp only at hcnt
            have e2 : (m.groupId == gid && !m.isPinned) = false := by
              simp [hpin2]
            rw [e2, show (if false = true then 1 else 0) = 0 from rfl] at hcnt
            have := hfive gid
            unfold pinnedCount at this ⊢
            omega
  · -- (ii) pin blocked at the cap
    intro m g hfm hfg hlead hpin hcnt
    simp only [togglePinMessage, hfm, hfg]
    simp [hlead, hpin, hcnt]
  · -- (iii) unpin always succeeds for the leader
    intro m g hfm hfg hlead hpin
    simp only [togglePinMessage, hfm, hfg]
    simp [hlead, hpin]
  · -- (iv) unpin decrements the pinned count
    intro m g messages2 hfm hfg hlead hpin hok
    have heq : togglePinMessage messages groups messageId userId
        = .ok (updateFirst (fun x => x.id == messageId)
            (fun _ => { m with isPinned := !m.isPinned }) messages) := by
      simp only [togglePinMessage, hfm, hfg]
      simp [hlead, hpin]
    rw [heq] at hok
    simp only [Except.ok.injEq] at hok
    subst hok
    have hcnt := countP_updateFirst (fun x => x.id == messageId)
      (fun x => x.groupId == m.groupId && x.isPinned)
      (fun _ => { m with isPinned := !m.isPinned }) messages m hfm
    dsimp only at hcnt
    have e1 : (m.groupId == m.groupId && m.isPinned) = true := by
      simp [hpin]
    have e2 : (m.groupId == m.groupId && !m.isPinned) = false := by
      simp [hpin]
    rw [e1, e2, show (if true = true then 1 else 0) = 1 from rfl,
      show (if false = true then 1 else 0) = 0 from rfl] at hcnt
    unfold pinnedCount
    omega
  · -- (v) pin succeeds below the cap and increments the count
    intro m g hfm hfg hlead hpin hlt
    constructor
    · simp only [togglePinMessage, hfm, hfg]
      simp [hlead, hpin, Nat.not_le.mpr hlt]
    · have hcnt := countP_updateFirst (fun x => x.id == messageId)
        (fun x => x.groupId == m.groupId && x.isPinned)
        (fun _ => { m with isPinned := true }) messages m hfm
      dsimp only at hcnt
      have e1 : (m.groupId == m.groupId && m.isPinned) = false := by
        simp [hpin]
      have e2 : (m.groupId == m.groupId && true) = true := by
        simp
      rw [e1, e2, show (if false = true then 1 else 0) = 0 from rfl,
        show (if true = true then 1 else 0) = 1 from rfl] at hcnt
      unfold pinnedCount
      omega

/-- Group of the pin-cap witness scenario. -/
def c7group : Group := ⟨10, 1, 50, 1, .publicV, none, true⟩

/-- Six messages of group 10, the first five pinned. -/
def c7msgs : List Message :=
  [⟨1, 10, 1, "a", [], true, false, [], false, [], 0⟩,
   ⟨2, 10, 1, "b", [], true, false, [], false, [], 0⟩,
   ⟨3, 10, 1, "c", [], true, false, [], false, [], 0⟩,
   ⟨4, 10, 1, "d", [], true, false, [], false, [], 0⟩,
   ⟨5, 10, 1, "e", [], true, false, [], false, [], 0⟩,
   ⟨6, 10, 1, "f", [], false, false, [], false, [], 0⟩]

/-- The witness scenario state after the leader unpins message 5. -/
def c7after5 : List Message :=
  [⟨1, 10, 1, "a", [], true, false, [], false, [], 0⟩,
   ⟨2, 10, 1, "b", [], true, false, [], false, [], 0⟩,
   ⟨3, 10, 1, "c", [], true, false, [], false, [], 0⟩,
   ⟨4, 10, 1, "d", [], true, false, [], false, [], 0⟩,
   ⟨5, 10, 1, "e", [], false, false, [], false, [], 0⟩,
   ⟨6, 10, 1, "f", [], false, false, [], false, [], 0⟩]

theorem togglePin_contract_witness :
    togglePinMessage c7msgs [c7group] 6 1 = .error .badRequest ∧
    togglePinMessage c7msgs [c7group] 5 1 = .ok c7after5 ∧
    togglePinMessage c7after5 [c7group] 6 1
      = .ok [⟨1, 10, 1, "a", [], true, false, [], false, [], 0⟩,
             ⟨2, 10, 1, "b", [], true, false, [], false, [], 0⟩,
             ⟨3, 10, 1, "c", [], true, false, [], false, [], 0⟩,
             ⟨4, 10, 1, "d", [], true, false, [], false, [], 0⟩,
             ⟨5, 10, 1, "e", [], false, false, [], false, [], 0⟩,
             ⟨6, 10, 1, "f", [], true, false, [], false, [], 0⟩] := by
  have hblock := (togglePin_contract c7msgs [c7group] 6 1).2.1
    ⟨6, 10, 1, "f", [], false, false, [], false, [], 0⟩ c7group
    rfl rfl rfl rfl (by decide)
  have hunpin := (togglePin_contract c7msgs [c7group] 5 1).2.2.1
    ⟨5, 10, 1, "e", [], true, false, [], false, [], 0⟩ c7group
    rfl rfl rfl rfl
  have hpin6 := ((togglePin_contract c7after5 [c7group] 6 1).2.2.2.2
    ⟨6, 10, 1, "f", [], false, false, [], false, [], 0⟩ c7group
    rfl rfl rfl rfl (by decide)).1
  exact ⟨hblock, hunpin.trans rfl, hpin6.trans rfl⟩

/-! Reaction-toggle semantics (claim C8). -/

/-- Users recorded for an emoji: the user array of the entry `find?`
returns, empty when the emoji has no entry. -/
def reactionUsers (rs : List Reaction) (emoji : String) : List Nat :=
  match rs.find? (fun r => r.emoji == emoji) with
  | some r => r.users
  | none => []

/-- A user has reacted to the message with an emoji: some entry carries
that emoji and lists the user. -/
def hasReaction (rs : List Reaction) (emoji : String) (userId : Nat) : Prop :=
  ∃ r ∈ rs, r.emoji = emoji ∧ userId ∈ r.users

/-- No reaction entry has an empty user array. -/
def noEmptyReaction (rs : List Reaction) : Prop := ∀ r ∈ rs, r.users ≠ []

/-- Each emoji appears in at most one entry. -/
def nodupEmojis (rs : List Reaction) : Prop := (rs.map Reaction.emoji).Nodup

/-- No user appears twice in one entry's array. -/
def nodupReactionUsers (rs : List Reaction) : Prop := ∀ r ∈ rs, r.users.Nodup

/-- The per-user-array toggle applyReactionToggle performs on the
affected emoji, seen at the lookup level (proof abbreviation): splice the
user out when present, push them otherwise. -/
def jsToggleUsers (l : List Nat) (u : Nat) : List Nat :=
  if l.any (fun x => x == u) then removeFirst (fun x => x == u) l
  else l ++ [u]

theorem mem_updateFirst_of_find? {α : Type} (p : α → Bool) (f : α → α)
    (l : List α) (a : α) (h : l.find? p = some a) :
    ∀ y ∈ updateFirst p f l, y ∈ l ∨ y = f a := by
  induction l with
  | nil => simp at h
  | cons x xs ih =>
    intro y hy
    by_cases hp : p x
    · rw [List.find?_cons_of_pos _ hp] at h
      injection h with h
      subst h
      simp only [updateFirst, if_pos hp, List.mem_cons] at hy
      rcases hy with rfl | hy
      · exact Or.inr rfl
      · exact Or.inl (List.mem_cons_of_mem _ hy)
    · rw [List.find?_cons_of_neg _ hp] at h
      simp only [updateFirst, if_neg hp, List.mem_cons] at hy
      rcases hy with rfl | hy
      · exact Or.inl (List.mem_cons_self y xs)
      · rcases ih h y hy with h1 | h1
        · exact Or.inl (List.mem_cons_of_mem _ h1)
        · exact Or.inr h1

theorem removeFirst_sublist {α : Type} (p : α → Bool) (l : List α) :
    List.Sublist (removeFirst p l) l := by
  induction l with
  | nil => simp [removeFirst]
  | cons x xs ih =>
    by_cases hp : p x
    · simp only [removeFirst, if_pos hp]
      exact List.sublist_cons_of_sublist x (List.Sublist.refl xs)
    · simp only [removeFirst, if_neg hp]
      exact List.Sublist.cons₂ x ih

theorem mem_removeFirst_of_ne (l : List Nat) (u u' : Nat) (hne : u' ≠ u) :
    u' ∈ removeFirst (fun x => x == u) l ↔ u' ∈ l := by
  induction l with
  | nil => simp [removeFirst]
  | cons x xs ih =>
    by_cases hp : (x == u) = true
    · have hx : x = u := by simpa using hp
      subst hx
      simp only [removeFirst, if_pos hp, List.mem_cons]
      constructor
      · exact Or.inr
      · rintro (rfl | hmem)
        · exact absurd rfl hne
        · exact hmem
    · simp only [removeFirst, if_neg hp, List.mem_cons, ih]

theorem not_mem_removeFirst_self (l : List Nat) (u : Nat) (hnd : l.Nodup) :
    u ∉ removeFirst (fun x => x == u) l := by
  induction l with
  | nil => simp [removeFirst]
  | cons x xs ih =>
    by_cases hp : (x == u) = true
    · have hx : x = u := by simpa using hp
      subst hx
      simp only [removeFirst, if_pos hp]
      exact (List.nodup_cons.1 hnd).1
    · have hx : x ≠ u := by simpa using hp
      simp only [removeFirst, if_neg hp, List.mem_cons]
      rintro (rfl | hmem)
      · exact hx rfl
      · exact ih (List.nodup_cons.1 hnd).2 hmem

theorem removeFirst_append_self (l : List Nat) (u : Nat) (h : u ∉ l) :
    removeFirst (fun x => x == u) (l ++ [u]) = l := by
  induction l with
  | nil => simp [removeFirst]
  | cons x xs ih =>
    have hx : x ≠ u := fun hcontra => h (hcontra ▸ List.mem_cons_self x xs)
    have hp : (x == u) = false := by simpa using hx
    rw [List.cons_append]
    simp only [removeFirst, hp, Bool.false_eq_true, if_false, List.append_eq]
    rw [ih (fun hm => h (List.mem_cons_of_mem _ hm))]

theorem mem_jsToggleUsers_twice (l : List Nat) (u u' : Nat) (hnd : l.Nodup) :
    u' ∈ jsToggleUsers (jsToggleUsers l u) u ↔ u' ∈ l := by
  by_cases hmem : u ∈ l
  · have hany : (l.any (fun x => x == u)) = true := by
      simp only [List.any_eq_true, beq_iff_eq]
      exact ⟨u, hmem, rfl⟩
    have h1 : jsToggleUsers l u = removeFirst (fun x => x == u) l := by
      unfold jsToggleUsers
      rw [hany, if_pos rfl]
    have hnmem : u ∉ removeFirst (fun x => x == u) l :=
      not_mem_removeFirst_self l u hnd
    have hany2 : ((removeFirst (fun x => x == u) l).any (fun x => x == u)) = false := by
      rw [List.any_eq_false]
      intro x hx
      simp only [beq_iff_eq]
      rintro rfl
      exact hnmem hx
    have h2 : jsToggleUsers (removeFirst (fun x => x == u) l) u
        = removeFirst (fun x => x == u) l ++ [u] := by
      unfold jsToggleUsers
      rw [hany2, if_neg (by decide)]
    rw [h1, h2]
    by_cases hu' : u' = u
    · subst hu'
      simp [List.mem_append, hmem]
    · simp only [List.mem_append, List.mem_singleton, hu', or_false]
      exact mem_removeFirst_of_ne l u u' hu'
  · have hany : (l.any (fun x => x == u)) = false := by
      rw [List.any_eq_false]
      intro x hx
      simp only [beq_iff_eq]
      rintro rfl
      exact hmem hx
    have h1 : jsToggleUsers l u = l ++ [u] := by
      unfold jsToggleUsers
      rw [hany, if_neg (by decide)]
    have hany2 : ((l ++ [u]).any (fun x => x == u)) = true := by
      simp only [List.any_eq_true, beq_iff_eq]
      exact ⟨u, List.mem_append_right _ (List.mem_singleton.2 rfl), rfl⟩
    have h2 : jsToggleUsers (l ++ [u]) u = l := by
      unfold jsToggleUsers
      rw [hany2, if_pos rfl, removeFirst_append_self l u hmem]
    rw [h1, h2]

/-- Value of the reaction lookup after one toggle: the affected emoji's
user array is toggled, every other emoji is untouched. -/
theorem react_lookup (rs : List Reaction) (u : Nat) (e e' : String) :
    reactionUsers (applyReactionToggle rs u e) e' =
      if e' = e then jsToggleUsers (reactionUsers rs e) u
      else reactionUsers rs e' := by
  cases hr : rs.find? (fun r => r.emoji == e) with
  | none =>
    have hstep : applyReactionToggle rs u e = rs ++ [⟨e, [u]⟩] := by
      unfold applyReactionToggle
      rw [hr]
    rw [hstep]
    unfold reactionUsers
    by_cases he : e' = e
    · rw [if_pos he, he]
      rw [findq_append_none _ _ _ hr, hr]
      have hone : (([⟨e, [u]⟩] : List Reaction).find?
          (fun r => r.emoji == e)) = some ⟨e, [u]⟩ :=
        List.find?_cons_of_pos _ (by simp)
      rw [hone]
      simp [jsToggleUsers]
    · rw [if_neg he]
      cases hr2 : rs.find? (fun r => r.emoji == e') with
      | some a =>
        rw [findq_append_some _ _ _ _ hr2]
      | none =>
        rw [findq_append_none _ _ _ hr2]
        have hone : (([⟨e, [u]⟩] : List Reaction).find?
            (fun r => r.emoji == e')) = none :=
          List.find?_cons_of_neg _ (by simp [Ne.symm he])
        rw [hone]
  | some r =>
    have hre : r.emoji = e := by simpa using List.find?_some hr
    by_cases hu : (r.users.any (fun x => x == u)) = true
    · by_cases hemp : ((removeFirst (fun x => x == u) r.users).isEmpty) = true
      · have hnil : removeFirst (fun x => x == u) r.users = [] := by
          simpa [List.isEmpty_iff] using hemp
        have hstep : applyReactionToggle rs u e
            = rs.filter (fun x => !(x.emoji == e)) := by
          unfold applyReactionToggle
          rw [hr]
          dsimp only
          rw [hu, if_pos rfl]
          rw [hnil, List.isEmpty_nil, if_pos rfl]
        rw [hstep]
        unfold reactionUsers
        by_cases he : e' = e
        · rw [if_pos he, he]
          rw [find?_filter_none (fun x => x.emoji == e)
            (fun x => !(x.emoji == e)) (fun x hx => by simpa using hx) rs]
          rw [hr]
          simp [jsToggleUsers, hu, hnil]
        · rw [if_neg he]
          rw [find?_filter_imp (fun x => x.emoji == e')
            (fun x => !(x.emoji == e)) ?_ rs]
          intro x hx
          have hxe : x.emoji = e' := by simpa using hx
          simp [hxe, he, Ne.symm he]
      · have hemp2 : ((removeFirst (fun x => x == u) r.users).isEmpty) = false := by
          simpa using hemp
        have hstep : applyReactionToggle rs u e
            = updateFirst (fun x => x.emoji == e)
                (fun x => { x with
                  users := removeFirst (fun y => y == u) r.users }) rs := by
          unfold applyReactionToggle
          rw [hr]
          dsimp only
          rw [hu, if_pos rfl]
          rw [hemp2, if_neg (by decide)]
        rw [hstep]
        unfold reactionUsers
        by_cases he : e' = e
        · rw [if_pos he, he]
          rw [find?_updateFirst_self (fun x => x.emoji == e)
            (fun x => { x with
              users := removeFirst (fun y => y == u) r.users }) rs r hr
            (by simp [hre])]
          rw [hr]
          simp [jsToggleUsers, hu]
        · rw [if_neg he]
          rw [find?_updateFirst_disjoint (fun x => x.emoji == e')
            (fun x => x.emoji == e)
            (fun x => { x with
              users := removeFirst (fun y => y == u) r.users })
            (fun x => rfl) ?_ rs]
          intro x hx
          have hxe : x.emoji = e := by simpa using hx
          simp [hxe, he, Ne.symm he]
    · have hu2 : (r.users.any (fun x => x == u)) = false := by
        rwa [Bool.not_eq_true] at hu
      have hstep : applyReactionToggle rs u e
          = updateFirst (fun x => x.emoji == e)
              (fun x => { x with users := x.users ++ [u] }) rs := by
        unfold applyReactionToggle
        rw [hr]
        dsimp only
        rw [hu2, if_neg (by decide)]
      rw [hstep]
      unfold reactionUsers
      by_cases he : e' = e
      · rw [if_pos he, he]
        rw [find?_updateFirst_self (fun x => x.emoji == e)
          (fun x => { x with users := x.users ++ [u] }) rs r hr
          (by simp [hre])]
        rw [hr]
        simp [jsToggleUsers, hu2]
      · rw [if_neg he]
        rw [find?_updateFirst_disjoint (fun x => x.emoji == e')
          (fun x => x.emoji == e)
          (fun x => { x with users := x.users ++ [u] })
          (fun x => rfl) ?_ rs]
        intro x hx
        have hxe : x.emoji = e := by simpa using hx
        simp [hxe, he, Ne.symm he]

/-- One toggle keeps every emoji entry's user array nonempty. -/
theorem react_preserves_noEmpty (rs : List Reaction) (u : Nat) (e : String)
    (h : noEmptyReaction rs) :
    noEmptyReaction (applyReactionToggle rs u e) := by
  cases hr : rs.find? (fun r => r.emoji == e) with
  | none =>
    have hstep : applyReactionToggle rs u e = rs ++ [⟨e, [u]⟩] := by
      unfold applyReactionToggle
      rw [hr]
    rw [hstep]
    intro r2 hmem
    rcases List.mem_append.1 hmem with hm | hm
    · exact h r2 hm
    · simp at hm
      subst hm
      simp
  | some r =>
    by_cases hu : (r.users.any (fun x => x == u)) = true
    · by_cases hemp : ((removeFirst (fun x => x == u) r.users).isEmpty) = true
      · have hnil : removeFirst (fun x => x == u) r.users = [] := by
          simpa [List.isEmpty_iff] using hemp
        have hstep : applyReactionToggle rs u e
            = rs.filter (fun x => !(x.emoji == e)) := by
          unfold applyReactionToggle
          rw [hr]
          dsimp only
          rw [hu, if_pos rfl]
          rw [hnil, List.isEmpty_nil, if_pos rfl]
        rw [hstep]
        intro r2 hmem
        exact h r2 (List.mem_filter.1 hmem).1
      · have hemp2 : ((removeFirst (fun x => x == u) r.users).isEmpty) = false := by
          simpa using hemp
        have hstep : applyReactionToggle rs u e
            = updateFirst (fun x => x.emoji == e)
                (fun x => { x with
                  users := removeFirst (fun y => y == u) r.users }) rs := by
          unfold applyReactionToggle
          rw [hr]
          dsimp only
          rw [hu, if_pos rfl]
          rw [hemp2, if_neg (by decide)]
        rw [hstep]
        intro r2 hmem
        rcases mem_updateFirst_of_find? _ _ rs r hr r2 hmem with hm | hm
        · exact h r2 hm
        · subst hm
          intro hnil
          have : ((removeFirst (fun y => y == u) r.users).isEmpty) = true := by
            simp only [show removeFirst (fun y => y == u) r.users = [] from hnil]
            rfl
          rw [this] at hemp2
          exact absurd hemp2 (by decide)
    · have hu2 : (r.users.any (fun x => x == u)) = false := by
        rwa [Bool.not_eq_true] at hu
      have hstep : applyReactionToggle rs u e
          = updateFirst (fun x => x.emoji == e)
              (fun x => { x with users := x.users ++ [u] }) rs := by
        unfold applyReactionToggle
        rw [hr]
        dsimp only
        rw [hu2, if_neg (by decide)]
      rw [hstep]
      intro r2 hmem
      rcases mem_updateFirst_of_find? _ _ rs r hr r2 hmem with hm | hm
      · exact h r2 hm
      · subst hm
        simp

/-- One toggle keeps the emoji entries duplicate-free. -/
theorem react_preserves_nodupEmojis (rs : List Reaction) (u : Nat) (e : String)
    (h : nodupEmojis rs) :
    nodupEmojis (applyReactionToggle rs u e) := by
  cases hr : rs.find? (fun r => r.emoji == e) with
  | none =>
    have hstep : applyReactionToggle rs u e = rs ++ [⟨e, [u]⟩] := by
      unfold applyReactionToggle
      rw [hr]
    rw [hstep]
    unfold nodupEmojis at h ⊢
    rw [List.map_append]
    rw [List.nodup_append]
    refine ⟨h, by simp, ?_⟩
    intro a ha hb
    simp at hb
    subst hb
    rcases List.mem_map.1 ha with ⟨x, hx, hxe⟩
    have := List.find?_eq_none.1 hr x hx
    simp [hxe] at this
  | some r =>
    by_cases hu : (r.users.any (fun x => x == u)) = true
    · by_cases hemp : ((removeFirst (fun x => x == u) r.users).isEmpty) = true
      · have hnil : removeFirst (fun x => x == u) r.users = [] := by
          simpa [List.isEmpty_iff] using hemp
        have hstep : applyReactionToggle rs u e
            = rs.filter (fun x => !(x.emoji == e)) := by
          unfold applyReactionToggle
          rw [hr]
          dsimp only
          rw [hu, if_pos rfl]
          rw [hnil, List.isEmpty_nil, if_pos rfl]
        rw [hstep]
        unfold nodupEmojis at h ⊢
        exact List.Nodup.sublist (List.Sublist.map _ (List.filter_sublist _)) h
      · have hemp2 : ((removeFirst (fun x => x == u) r.users).isEmpty) = false := by
          simpa using hemp
        have hstep : applyReactionToggle rs u e
            = updateFirst (fun x => x.emoji == e)
                (fun x => { x with
                  users := removeFirst (fun y => y == u) r.users }) rs := by
          unfold applyReactionToggle
          rw [hr]
          dsimp only
          rw [hu, if_pos rfl]
          rw [hemp2, if_neg (by decide)]
        rw [hstep]
        unfold nodupEmojis at h ⊢
        rw [map_key_updateFirst Reaction.emoji (fun x => x.emoji == e)
          (fun x => { x with
            users := removeFirst (fun y => y == u) r.users })
          (fun x hx => rfl)]
        exact h
    · have hu2 : (r.users.any (fun x => x == u)) = false := by
        rwa [Bool.not_eq_true] at hu
      have hstep : applyReactionToggle rs u e
          = updateFirst (fun x => x.emoji == e)
              (fun x => { x with users := x.users ++ [u] }) rs := by
        unfold applyReactionToggle
        rw [hr]
        dsimp only
        rw [hu2, if_neg (by decide)]
      rw [hstep]
      unfold nodupEmojis at h ⊢
      rw [map_key_updateFirst Reaction.emoji (fun x => x.emoji == e)
        (fun x => { x with users := x.users ++ [u] })
        (fun x hx => rfl)]
      exact h

/-- With duplicate-free emojis, the entry of a given emoji found by
membership is the one `find?` returns. -/
theorem find?_emoji_of_mem (rs : List Reaction) (r : Reaction) (e : String)
    (h : nodupEmojis rs) (hmem : r ∈ rs) (he : r.emoji = e) :
    rs.find? (fun x => x.emoji == e) = some r := by
  induction rs with
  | nil => simp at hmem
  | cons x xs ih =>
    rcases List.mem_cons.1 hmem with rfl | hmem2
    · exact List.find?_cons_of_pos _ (by simp [he])
    · by_cases hx : (x.emoji == e) = true
      · exfalso
        have hxe : x.emoji = e := by simpa using hx
        have hin : e ∈ xs.map Reaction.emoji := he ▸ List.mem_map_of_mem _ hmem2
        unfold nodupEmojis at h
        rw [List.map_cons] at h
        exact (List.nodup_cons.1 h).1 (hxe ▸ hin)
      · have hstep2 : List.find? (fun y => y.emoji == e) (x :: xs)
            = List.find? (fun y => y.emoji == e) xs :=
          List.find?_cons_of_neg _ hx
        rw [hstep2]
        apply ih _ hmem2
        unfold nodupEmojis at h ⊢
        rw [List.map_cons] at h
        exact (List.nodup_cons.1 h).2

/-- With duplicate-free emojis, having reacted is exactly membership in
the lookup's user array. -/
theorem hasReaction_iff_mem_lookup (rs : List Reaction) (e : String) (u : Nat)
    (h : nodupEmojis rs) :
    hasReaction rs e u ↔ u ∈ reactionUsers rs e := by
  constructor
  · rintro ⟨r, hmem, hre, hu⟩
    unfold reactionUsers
    rw [find?_emoji_of_mem rs r e h hmem hre]
    exact hu
  · intro hu
    unfold reactionUsers at hu
    cases hr : rs.find? (fun x => x.emoji == e) with
    | none => rw [hr] at hu; simp at hu
    | some r =>
      rw [hr] at hu
      exact ⟨r, List.mem_of_find?_eq_some hr,
        by simpa using List.find?_some hr, hu⟩

/-- The lookup of a store with duplicate-free per-entry user arrays is
duplicate-free. -/
theorem reactionUsers_nodup (rs : List Reaction) (e : String)
    (h : nodupReactionUsers rs) : (reactionUsers rs e).Nodup := by
  unfold reactionUsers
  cases hr : rs.find? (fun x => x.emoji == e) with
  | none => simp
  | some r => exact h r (List.mem_of_find?_eq_some hr)

/-- C8: react is an involutive toggle — on a store whose emoji entries
are unique and whose per-entry user arrays are duplicate-free (both
maintained by the toggle itself), applying react(m,u,e) twice restores
the reaction state: exactly the same users have reacted with exactly the
same emojis as before.  And after any sequence of react operations
starting from a store with no empty entry, no emoji entry has an empty
user array (the entry is dropped when its last user un-reacts). -/
theorem react_toggle_involutive_and_no_empty (rs : List Reaction)
    (u : Nat) (e : String)
    (h1 : nodupEmojis rs) (h2 : nodupReactionUsers rs) :
    (∀ e' u', hasReaction (applyReactionToggle
        (applyReactionToggle rs u e) u e) e' u' ↔ hasReaction rs e' u') ∧
    (∀ rs0 : List Reaction, ∀ ops : List (Nat × String),
      noEmptyReaction rs0 →
      noEmptyReaction (ops.foldl
        (fun acc p => applyReactionToggle acc p.1 p.2) rs0)) := by
  constructor
  · intro e' u'
    have hA1 : nodupEmojis (applyReactionToggle rs u e) :=
      react_preserves_nodupEmojis rs u e h1
    have hA2 : nodupEmojis (applyReactionToggle (applyReactionToggle rs u e) u e) :=
      react_preserves_nodupEmojis _ u e hA1
    rw [hasReaction_iff_mem_lookup _ _ _ hA2,
      hasReaction_iff_mem_lookup _ _ _ h1]
    by_cases he : e' = e
    · rw [react_lookup, if_pos he, react_lookup, if_pos rfl, he]
      exact mem_jsToggleUsers_twice _ u u' (reactionUsers_nodup rs e h2)
    · rw [react_lookup, if_neg he, react_lookup, if_neg he]
  · intro rs0 ops
    induction ops generalizing rs0 with
    | nil => exact fun h0 => h0
    | cons p ps ih =>
      intro h0
      rw [List.foldl_cons]
      exact ih _ (react_preserves_noEmpty rs0 p.1 p.2 h0)

theorem react_toggle_involutive_and_no_empty_witness :
    (∀ e' u', hasReaction (applyReactionToggle
        (applyReactionToggle [⟨"a", [1]⟩] 2 "b") 2 "b") e' u'
      ↔ hasReaction [⟨"a", [1]⟩] e' u') ∧
    (∀ rs0 : List Reaction, ∀ ops : List (Nat × String),
      noEmptyReaction rs0 →
      noEmptyReaction (ops.foldl
        (fun acc p => applyReactionToggle acc p.1 p.2) rs0)) :=
  react_toggle_involutive_and_no_empty [⟨"a", [1]⟩] 2 "b"
    (by unfold nodupEmojis; decide) (by unfold nodupReactionUsers; decide)

/-- C9 counterexample: the claim says the generated code is always
exactly 8 characters.  `Math.random()` can return 0.5, whose base-36
fraction digit list is `[18]` (0.5 = 18/36): `(0.5).toString(36)` is
`0.i`, `substring(2, 10)` keeps only `i`, and uppercasing yields `I` — a
1-character code, persisted by the pre-save hook on a private group with
no code. -/
theorem generateJoinCode_length_counterexample :
    (18 : Nat) < 36 ∧
    generateJoinCode [18] = "I" ∧
    ¬((generateJoinCode [18]).length = 8) ∧
    preSaveJoinCode ⟨10, 1, 50, 1, .privateV, none, true⟩ [18]
      = ⟨10, 1, 50, 1, .privateV, some "I", true⟩ :=
  ⟨by decide, rfl, by decide, rfl⟩

/-- C9 (amended): for every drawn random value (every base-36 fraction
digit list), the generated join code is AT MOST 8 characters long — not
always exactly 8 — and every character of it is an uppercase letter or a
decimal digit. -/
theorem generateJoinCode_short_uppercase (digits : List Nat)
    (h : ∀ d ∈ digits, d < 36) :
    (generateJoinCode digits).length ≤ 8 ∧
    ∀ c ∈ (generateJoinCode digits).data,
      (65 ≤ c.toNat ∧ c.toNat ≤ 90) ∨ (48 ≤ c.toNat ∧ c.toNat ≤ 57) := by
  cases digits with
  | nil => exact ⟨by decide, by decide⟩
  | cons d ds =>
    have hgen : generateJoinCode (d :: ds)
        = String.mk ((((d :: ds).map base36Char).take 8).map Char.toUpper) := by
      rfl
    rw [hgen]
    constructor
    · show (((((d :: ds).map base36Char).take 8).map Char.toUpper)).length ≤ 8
      rw [List.length_map, List.length_take]
      omega
    · intro c hc
      have hc2 : c ∈ (((d :: ds).map base36Char).take 8).map Char.toUpper := hc
      rcases List.mem_map.1 hc2 with ⟨b, hb, rfl⟩
      have hb2 := List.mem_of_mem_take hb
      rcases List.mem_map.1 hb2 with ⟨dd, hdd, rfl⟩
      have hlt := h dd hdd
      interval_cases dd <;> decide

theorem generateJoinCode_short_uppercase_witness :
    (∀ d ∈ [18, 2, 35, 0, 1, 9, 10, 33, 4], d < 36) ∧
    ((generateJoinCode [18, 2, 35, 0, 1, 9, 10, 33, 4]).length ≤ 8 ∧
     ∀ c ∈ (generateJoinCode [18, 2, 35, 0, 1, 9, 10, 33, 4]).data,
       (65 ≤ c.toNat ∧ c.toNat ≤ 90) ∨ (48 ≤ c.toNat ∧ c.toNat ≤ 57)) :=
  ⟨by decide, generateJoinCode_short_uppercase _ (by decide)⟩

/-- C3: the join contract, in the source's guard order.  A thrown error
aborts the transaction, which the embedding reflects by returning an
error and no new state, so the membership row and counter are unchanged
on every failure.  The theorem-level hypothesis records a fact true of
every reachable store: a private group carries a nonempty join code,
since the pre-save hook generates one whenever it is missing. -/
theorem joinGroup_contract (db : DB) (gid uid : Nat) (code : Option String)
    (now : Int)
    (hjc : ∀ g ∈ db.groups, g.visibility = .privateV →
      (g.joinCode ≠ none ∧ g.joinCode ≠ some "")) :
    (findGroup db gid = none →
      joinGroup db gid uid code now = .error .notFound) ∧
    (∀ g, findGroup db gid = some g → g.isActive = false →
      joinGroup db gid uid code now = .error .notFound) ∧
    (∀ g, findGroup db gid = some g → g.isActive = true →
      g.capacity ≤ g.currentMemberCount →
      joinGroup db gid uid code now = .error .forbidden) ∧
    (∀ g m, findGroup db gid = some g → g.isActive = true →
      g.currentMemberCount < g.capacity →
      findMembership db gid uid = some m → m.status = .active →
      joinGroup db gid uid code now = .error .conflict) ∧
    (∀ g m, findGroup db gid = some g → g.isActive = true →
      g.currentMemberCount < g.capacity →
      findMembership db gid uid = some m → m.status = .banned →
      joinGroup db gid uid code now = .error .forbidden) ∧
    (∀ g, findGroup db gid = some g → g.isActive = true →
      g.currentMemberCount < g.capacity →
      (findMembership db gid uid = none ∨
        ∃ m, findMembership db gid uid = some m ∧ m.status = .inactive) →
      g.visibility = .privateV → code ≠ g.joinCode →
      joinGroup db gid uid code now = .error .badRequest) ∧
    (∀ g, findGroup db gid = some g → g.isActive = true →
      g.currentMemberCount < g.capacity →
      (findMembership db gid uid = none ∨
        ∃ m, findMembership db gid uid = some m ∧ m.status = .inactive) →
      (g.visibility = .privateV → code = g.joinCode) →
      ∃ db', joinGroup db gid uid code now = .ok db' ∧
        (∃ m', findMembership db' gid uid = some m' ∧
          m'.status = .active ∧ m'.joinedAt = now) ∧
        (findGroup db' gid).map Group.currentMemberCount
          = some (g.currentMemberCount + 1)) := by
  refine ⟨?_, ?_, ?_, ?_, ?_, ?_, ?_⟩
  · intro h0
    unfold joinGroup
    rw [h0]
  · intro g hg hact
    unfold joinGroup
    rw [hg]
    dsimp only
    rw [hact, if_pos (by decide)]
  · intro g hg hact hcap
    unfold joinGroup
    rw [hg]
    dsimp only
    rw [hact, if_neg (by decide), if_pos hcap]
  · intro g m hg hact hcap hm hst
    unfold joinGroup
    rw [hg]
    dsimp only
    rw [hact, if_neg (by decide), if_neg (not_le.mpr hcap), hm]
    dsimp only
    rw [hst, if_pos (by decide)]
  · intro g m hg hact hcap hm hst
    unfold joinGroup
    rw [hg]
    dsimp only
    rw [hact, if_neg (by decide), if_neg (not_le.mpr hcap), hm]
    dsimp only
    rw [hst, if_neg (by decide), if_pos (by decide)]
  · intro g hg hact hcap hmem hvis hne
    have hbool : (g.visibility == GroupVisibility.privateV &&
        (jsFalsy code || code != g.joinCode)) = true := by
      simp [hvis, hne]
    rcases hmem with hm0 | ⟨m, hm0, hst⟩
    · unfold joinGroup
      rw [hg]
      dsimp only
      rw [hact, if_neg (by decide), if_neg (not_le.mpr hcap), hm0]
      dsimp only
      rw [if_pos hbool]
    · unfold joinGroup
      rw [hg]
      dsimp only
      rw [hact, if_neg (by decide), if_neg (not_le.mpr hcap), hm0]
      dsimp only
      rw [hst, if_neg (by decide), if_neg (by decide), if_pos hbool]
  · intro g hg hact hcap hmem hpriv
    have hgid := findGroup_id db gid g hg
    have hbool : (g.visibility == GroupVisibility.privateV &&
        (jsFalsy code || code != g.joinCode)) = false := by
      by_cases hvis : g.visibility = .privateV
      · have hcode := hpriv hvis
        rcases hjc g (findGroup_mem db gid g hg) hvis with ⟨hj1, hj2⟩
        cases hcj : g.joinCode with
        | none => exact absurd hcj hj1
        | some s =>
          have hsne : s ≠ "" := by
            intro hcontra
            exact hj2 (by rw [hcj, hcontra])
          rw [hcode, hcj]
          simp [jsFalsy, hsne]
      · have : (g.visibility == GroupVisibility.privateV) = false := by
          simp [hvis]
        simp [this]
    rcases hmem with hm0 | ⟨m, hm0, hst⟩
    · refine ⟨{ db with
          members := db.members ++ [⟨gid, uid, .member, .active, now⟩],
          groups := updateFirst (fun x => x.id == gid)
            (fun _ => { g with
              currentMemberCount := g.currentMemberCount + 1 }) db.groups },
        ?_, ?_, ?_⟩
      · unfold joinGroup
        rw [hg]
        dsimp only
        rw [hact, if_neg (by decide), if_neg (not_le.mpr hcap), hm0]
        dsimp only
        rw [hbool, if_neg (by decide)]
      · refine ⟨⟨gid, uid, .member, .active, now⟩, ?_, rfl, rfl⟩
        unfold findMembership at hm0 ⊢
        rw [findq_append_none _ _ _ hm0]
        exact List.find?_cons_of_pos _ (by simp [memberKey])
      · have hg2 : db.groups.find? (fun x => x.id == gid) = some g := hg
        unfold findGroup
        rw [find?_updateFirst_self (fun x => x.id == gid)
          (fun _ => { g with currentMemberCount := g.currentMemberCount + 1 })
          db.groups g hg2 (by simp [hgid])]
        rfl
    · refine ⟨{ db with
          members := updateFirst (memberKey gid uid)
            (fun _ => { m with status := .active, joinedAt := now })
            db.members,
          groups := updateFirst (fun x => x.id == gid)
            (fun _ => { g with
              currentMemberCount := g.currentMemberCount + 1 }) db.groups },
        ?_, ?_, ?_⟩
      · unfold joinGroup
        rw [hg]
        dsimp only
        rw [hact, if_neg (by decide), if_neg (not_le.mpr hcap), hm0]
        dsimp only
        rw [hst, if_neg (by decide), if_neg (by decide), hbool,
          if_neg (by decide)]
      · have hkey := List.find?_some hm0
        refine ⟨{ m with status := .active, joinedAt := now }, ?_, rfl, rfl⟩
        unfold findMembership at hm0 ⊢
        rw [find?_updateFirst_self (memberKey gid uid)
          (fun _ => { m with status := .active, joinedAt := now })
          db.members m hm0 (by simpa [memberKey] using hkey)]
      · have hg2 : db.groups.find? (fun x => x.id == gid) = some g := hg
        unfold findGroup
        rw [find?_updateFirst_self (fun x => x.id == gid)
          (fun _ => { g with currentMemberCount := g.currentMemberCount + 1 })
          db.groups g hg2 (by simp [hgid])]
        rfl

/-- Store of the join-contract witness: private group 10 with capacity 3,
one active member (the leader) and join code ABCD1234. -/
def wdb : DB :=
  ⟨[⟨10, 1, 3, 1, .privateV, some "ABCD1234", true⟩],
   [⟨10, 1, .leader, .active, 0⟩], []⟩

theorem joinGroup_contract_witness :
    ∃ db', joinGroup wdb 10 2 (some "ABCD1234") 7 = .ok db' ∧
      (∃ m', findMembership db' 10 2 = some m' ∧
        m'.status = .active ∧ m'.joinedAt = 7) ∧
      (findGroup db' 10).map Group.currentMemberCount = some 2 :=
  (joinGroup_contract wdb 10 2 (some "ABCD1234") 7
      (by decide)).2.2.2.2.2.2
    ⟨10, 1, 3, 1, .privateV, some "ABCD1234", true⟩ rfl rfl (by decide)
    (Or.inl rfl) (fun _ => rfl)

end StudyGroup
